import Mathlib

/-!
# MoleSwap TEE settlement protocol — shallow embedding and verification

This file embeds the core of the MoleSwap repository in Lean 4 and settles the
frozen claims about it.

Embedded code:
* `src/moleswap-v3-iexec/contracts/src/MoleSwapHook.sol` — the ledger state
  machine (intents, releases, batch settlement, release execution).
* `src/tee-app/src/app.js` — the TEE matching engine (`matchIntents`),
  release generation (`generateReleases`) and ECIES wrapping (`eciesEncrypt`).

Modelling conventions:
* Ethereum addresses, token amounts and timestamps are `Nat`.  An address
  literal stands for its 20-byte value; `0` is `address(0)`.  The matcher's
  lowercase-hex string comparison on addresses coincides with numeric
  comparison on fixed-width hex strings, so `<` on `Nat` is faithful.
* `bytes32` values that the contract only ever produces via `keccak256` over
  distinct-shape preimages are modelled by the inductive `B32`: one
  constructor per preimage shape, which bakes in collision resistance of the
  hash (constructors are injective) while staying executable.
* ECDSA recovery over the eth-signed-message prefix of the batch hash is
  modelled symbolically: a signature carries the batch content it signed and
  the address of its signer, and `recover` returns that address exactly when
  the content matches (ideal EUF-CMA signature + collision-resistant hash).
* Solidity storage mappings are association lists with a default value on
  lookup (Solidity's zero-initialised storage); `mupd` replaces the first
  binding or appends.
* ERC-20 token state is a balance map; `safeTransferFrom` / `safeTransfer`
  fail (reverting the whole call) when the source balance is insufficient.
  Allowances are modelled as unlimited, which only enlarges the set of
  reachable behaviours.
* Reverting Solidity calls are `Except Err`: an operation either returns the
  full successor state or an error, in which case the caller's state is kept
  unchanged — exactly the EVM's whole-transaction rollback.
-/

/-- 32-byte hash values.  Constructors mirror the `keccak256(abi.encodePacked(...))`
call sites of `MoleSwapHook.sol`: `iid` is the intent id computed in
`submitIntent` over `(msg.sender, tokenIn, tokenOut, amountIn, block.timestamp,
intentNonce)`, `rid` is the release id computed in `_queueRelease` over
`(intentId, stealthAddress, releaseTime)`, and `raw` covers externally supplied
words such as batch ids. -/
inductive B32 where
  | raw : Nat → B32
  | iid : Nat → Nat → Nat → Nat → Nat → Nat → B32
  | rid : B32 → Nat → Nat → B32
deriving DecidableEq, Repr

/-- `struct Intent` of `MoleSwapHook.sol`. -/
structure Intent where
  sender : Nat
  tokenIn : Nat
  tokenOut : Nat
  amountIn : Nat
  viewingPubKey : List Nat
  deadline : Nat
  submittedAt : Nat
  settled : Bool
deriving DecidableEq, Repr

/-- The all-zero `Intent` a Solidity mapping yields for an absent key. -/
def defaultIntent : Intent := ⟨0, 0, 0, 0, [], 0, 0, false⟩

/-- `struct PendingRelease` of `MoleSwapHook.sol`. -/
structure PendingRelease where
  token : Nat
  stealthAddress : Nat
  amount : Nat
  releaseTime : Nat
  encryptedStealthKey : List Nat
  intentId : B32
  executed : Bool
deriving DecidableEq, Repr

/-- The all-zero `PendingRelease` a Solidity mapping yields for an absent key. -/
def defaultRelease : PendingRelease := ⟨0, 0, 0, 0, [], B32.raw 0, false⟩

/-- `struct InternalMatch` of `MoleSwapHook.sol`. -/
structure InternalMatch where
  buyIntentId : B32
  sellIntentId : B32
  matchedAmount : Nat
deriving DecidableEq, Repr

/-- `struct Settlement` of `MoleSwapHook.sol` (AMM-routed settlement). -/
structure Settlement where
  intentId : B32
  stealthAddress : Nat
  amountOut : Nat
  zeroForOne : Bool
deriving DecidableEq, Repr

/-- The five fields of a `SettlementBatch` that `_computeBatchHash` encodes and
hashes.  In the symbolic hash model the canonical hash of a batch IS this
content record (keccak over the fixed `abi.encode` layout is injective). -/
structure BatchContent where
  internalMatches : List InternalMatch
  ammSettlements : List Settlement
  releases : List PendingRelease
  batchId : B32
  timestamp : Nat
deriving DecidableEq, Repr

/-- An ECDSA signature under the eth-signed-message prefix, modelled
symbolically: it records which batch content was signed and by which address.
Producing a `Sig` with `signerAddr = a` models knowing `a`'s private key. -/
structure Sig where
  signedContent : BatchContent
  signerAddr : Nat
deriving DecidableEq, Repr

/-- `struct SettlementBatch` of `MoleSwapHook.sol`. -/
structure SettlementBatch where
  internalMatches : List InternalMatch
  ammSettlements : List Settlement
  releases : List PendingRelease
  batchId : B32
  timestamp : Nat
  teeSignature : Sig
deriving DecidableEq, Repr

/-- `_computeBatchHash`: keccak over the `abi.encode` of the five content
fields, modelled as the content itself (injective symbolic hash). -/
def computeBatchHash (b : SettlementBatch) : BatchContent :=
  ⟨b.internalMatches, b.ammSettlements, b.releases, b.batchId, b.timestamp⟩

/-- `ECDSA.recover` composed with `toEthSignedMessageHash`: yields the
signature's signer exactly when the signature was made over the given batch
hash, and the zero address otherwise. -/
def recover (h : BatchContent) (sig : Sig) : Nat :=
  if sig.signedContent = h then sig.signerAddr else 0

-- ══════════════════════════════════════════════════════════════
-- Association-list maps (Solidity storage mappings)
-- ══════════════════════════════════════════════════════════════

/-- Lookup in an association list (first binding wins). -/
def mlookup {α β : Type} [DecidableEq α] : List (α × β) → α → Option β
  | [], _ => none
  | (k', v) :: rest, k => if k' = k then some v else mlookup rest k

/-- Update an association list: replace the first binding of the key, or
append a new binding. -/
def mupd {α β : Type} [DecidableEq α] : List (α × β) → α → β → List (α × β)
  | [], k, v => [(k, v)]
  | (k', v') :: rest, k, v =>
      if k' = k then (k, v) :: rest else (k', v') :: mupd rest k v

theorem mlookup_mupd_self {α β : Type} [DecidableEq α]
    (l : List (α × β)) (k : α) (v : β) : mlookup (mupd l k v) k = some v := by
  induction l with
  | nil => simp [mupd, mlookup]
  | cons hd tl ih =>
      obtain ⟨k', v'⟩ := hd
      by_cases h : k' = k
      · simp [mupd, h, mlookup]
      · simp [mupd, h, mlookup, ih]

theorem mlookup_mupd_ne {α β : Type} [DecidableEq α]
    (l : List (α × β)) (k k' : α) (v : β) (h : k' ≠ k) :
    mlookup (mupd l k v) k' = mlookup l k' := by
  induction l with
  | nil => simp [mupd, mlookup, Ne.symm h]
  | cons hd tl ih =>
      obtain ⟨k₀, v₀⟩ := hd
      by_cases h₀ : k₀ = k
      · subst h₀
        simp [mupd, mlookup, Ne.symm h]
      · by_cases h₁ : k₀ = k'
        · subst h₁
          simp [mupd, mlookup, h, h₀]
        · simp [mupd, h₀, mlookup, h₁, ih]

theorem mlookup_mupd_isSome {α β : Type} [DecidableEq α]
    (l : List (α × β)) (k k' : α) (v : β)
    (h : (mlookup (mupd l k v) k').isSome) :
    k' = k ∨ (mlookup l k').isSome := by
  by_cases hk : k' = k
  · exact Or.inl hk
  · right
    rwa [mlookup_mupd_ne l k k' v hk] at h

-- ══════════════════════════════════════════════════════════════
-- Ledger state (contract storage of MoleSwapHook)
-- ══════════════════════════════════════════════════════════════

/-- `MIN_DELAY` constant of `MoleSwapHook.sol` (seconds). -/
def MIN_DELAY : Nat := 60

/-- `MAX_DELAY` constant of `MoleSwapHook.sol` (seconds). -/
def MAX_DELAY : Nat := 180

/-- The contract storage of `MoleSwapHook`, together with the external token
balances it manipulates (`balances (token, holder)`), the contract's own
address `hookAddr` (`address(this)`), and the chain time (`block.timestamp`). -/
structure LedgerState where
  oracle : Nat
  teeSigner : Nat
  owner : Nat
  hookAddr : Nat
  intents : List (B32 × Intent)
  releases : List (B32 × PendingRelease)
  processedBatches : List B32
  pendingIntentIds : List B32
  pendingReleaseIds : List B32
  intentNonce : Nat
  balances : List ((Nat × Nat) × Nat)
  time : Nat
deriving DecidableEq, Repr

/-- Contract state right after the constructor ran, with given pre-existing
token balances and chain time. -/
def initState (oracle teeSigner owner hookAddr : Nat)
    (balances : List ((Nat × Nat) × Nat)) (time : Nat) : LedgerState :=
  ⟨oracle, teeSigner, owner, hookAddr, [], [], [], [], [], 0, balances, time⟩

/-- Mapping read `intents[id]` (zero struct when absent). -/
def lookupIntentD (s : LedgerState) (id : B32) : Intent :=
  (mlookup s.intents id).getD defaultIntent

/-- Mapping read `releases[id]` (zero struct when absent). -/
def lookupReleaseD (s : LedgerState) (id : B32) : PendingRelease :=
  (mlookup s.releases id).getD defaultRelease

/-- ERC-20 balance of `holder` in `token`. -/
def getBal (s : LedgerState) (token holder : Nat) : Nat :=
  (mlookup s.balances (token, holder)).getD 0

/-- Overwrite an ERC-20 balance. -/
def setBal (s : LedgerState) (token holder amt : Nat) : LedgerState :=
  { s with balances := mupd s.balances (token, holder) amt }

/-- `IERC20.safeTransferFrom` / `safeTransfer`: move `amt` of `token` from
`src` to `dst`, failing (reverting) when `src`'s balance is insufficient. -/
def transferToken (s : LedgerState) (token src dst amt : Nat) :
    Option LedgerState :=
  if getBal s token src < amt then none
  else
    let s1 := setBal s token src (getBal s token src - amt)
    some (setBal s1 token dst (getBal s1 token dst + amt))

/-- The contract's revert reasons (custom errors and require strings). -/
inductive Err where
  | OnlyOracle | OnlyOwner | InvalidSignature | BatchAlreadyProcessed
  | IntentNotFound | IntentAlreadySettled | IntentExpired
  | ReleaseNotReady | ReleaseAlreadyExecuted | InvalidReleaseTime
  | TransferFailed | DeadlinePassed | ZeroAmount | BadKeyLength
deriving DecidableEq, Repr

/-- Index of the first occurrence of `x` (the loop counter at which the scan
in `_removeFromPendingIntents` / `_removeFromPendingReleases` hits `x`). -/
def firstIdx : List B32 → B32 → Option Nat
  | [], _ => none
  | y :: ys, x => if y = x then some 0 else (firstIdx ys x).map (· + 1)

/-- Swap-with-last-and-pop removal used by `_removeFromPendingIntents` and
`_removeFromPendingReleases`: overwrite the first occurrence of `x` with the
last element, then pop the last element. -/
def swapRemove (l : List B32) (x : B32) : List B32 :=
  match firstIdx l x with
  | none => l
  | some i => (l.set i (l.getLast?.getD x)).dropLast

-- ══════════════════════════════════════════════════════════════
-- Ledger operations
-- ══════════════════════════════════════════════════════════════

/-- `submitIntent(tokenIn, tokenOut, amountIn, viewingPubKey, deadline)`. -/
def submitIntent (s : LedgerState) (caller tokenIn tokenOut amountIn : Nat)
    (viewingPubKey : List Nat) (deadline : Nat) :
    Except Err (B32 × LedgerState) :=
  if ¬ deadline > s.time then .error .DeadlinePassed
  else if ¬ amountIn > 0 then .error .ZeroAmount
  else if ¬ viewingPubKey.length = 65 then .error .BadKeyLength
  else
    let intentId := B32.iid caller tokenIn tokenOut amountIn s.time s.intentNonce
    .ok (intentId,
      { s with
        intentNonce := s.intentNonce + 1
        intents := mupd s.intents intentId
          ⟨caller, tokenIn, tokenOut, amountIn, viewingPubKey, deadline, s.time, false⟩
        pendingIntentIds := s.pendingIntentIds ++ [intentId] })

/-- `cancelIntent(intentId)`. -/
def cancelIntent (s : LedgerState) (caller : Nat) (intentId : B32) :
    Except Err LedgerState :=
  let intent := lookupIntentD s intentId
  if ¬ intent.sender = caller then .error .IntentNotFound
  else if intent.settled then .error .IntentAlreadySettled
  else
    .ok { s with
      intents := mupd s.intents intentId { intent with settled := true }
      pendingIntentIds := swapRemove s.pendingIntentIds intentId }

/-- `_processInternalMatch`. -/
def processInternalMatch (s : LedgerState) (m : InternalMatch) :
    Except Err LedgerState :=
  let buy := lookupIntentD s m.buyIntentId
  let sell := lookupIntentD s m.sellIntentId
  if buy.sender = 0 then .error .IntentNotFound
  else if sell.sender = 0 then .error .IntentNotFound
  else if buy.settled ∨ sell.settled then .error .IntentAlreadySettled
  else
    match transferToken s buy.tokenIn buy.sender s.hookAddr m.matchedAmount with
    | none => .error .TransferFailed
    | some s1 =>
      match transferToken s1 sell.tokenIn sell.sender s1.hookAddr m.matchedAmount with
      | none => .error .TransferFailed
      | some s2 =>
        let s3 :=
          { s2 with intents := mupd s2.intents m.buyIntentId { buy with settled := true } }
        let s4 :=
          { s3 with intents := mupd s3.intents m.sellIntentId { sell with settled := true } }
        .ok { s4 with
          pendingIntentIds :=
            swapRemove (swapRemove s4.pendingIntentIds m.buyIntentId) m.sellIntentId }

/-- `_processAmmSettlement`. -/
def processAmmSettlement (s : LedgerState) (stl : Settlement) :
    Except Err LedgerState :=
  let intent := lookupIntentD s stl.intentId
  if intent.sender = 0 then .error .IntentNotFound
  else if intent.settled then .error .IntentAlreadySettled
  else if s.time > intent.deadline then .error .IntentExpired
  else
    match transferToken s intent.tokenIn intent.sender s.hookAddr intent.amountIn with
    | none => .error .TransferFailed
    | some s1 =>
      .ok { s1 with
        intents := mupd s1.intents stl.intentId { intent with settled := true }
        pendingIntentIds := swapRemove s1.pendingIntentIds stl.intentId }

/-- `_queueRelease`. -/
def queueRelease (s : LedgerState) (r : PendingRelease) :
    Except Err LedgerState :=
  if r.releaseTime < s.time + MIN_DELAY then .error .InvalidReleaseTime
  else if r.releaseTime > s.time + MAX_DELAY then .error .InvalidReleaseTime
  else
    let releaseId := B32.rid r.intentId r.stealthAddress r.releaseTime
    .ok { s with
      releases := mupd s.releases releaseId
        ⟨r.token, r.stealthAddress, r.amount, r.releaseTime,
         r.encryptedStealthKey, r.intentId, false⟩
      pendingReleaseIds := s.pendingReleaseIds ++ [releaseId] }

/-- Fold a reverting step over a list: the first error aborts the whole fold
(whole-batch rollback). -/
def foldE {α : Type} (f : LedgerState → α → Except Err LedgerState) :
    LedgerState → List α → Except Err LedgerState
  | s, [] => .ok s
  | s, x :: xs =>
    match f s x with
    | .error e => .error e
    | .ok s' => foldE f s' xs

/-- `settleAndQueue(batch)` (with the `onlyOracle` modifier). -/
def settleAndQueue (s : LedgerState) (caller : Nat) (batch : SettlementBatch) :
    Except Err LedgerState :=
  if ¬ caller = s.oracle then .error .OnlyOracle
  else if batch.batchId ∈ s.processedBatches then .error .BatchAlreadyProcessed
  else if ¬ recover (computeBatchHash batch) batch.teeSignature = s.teeSigner then
    .error .InvalidSignature
  else
    let s0 := { s with processedBatches := s.processedBatches ++ [batch.batchId] }
    match foldE processInternalMatch s0 batch.internalMatches with
    | .error e => .error e
    | .ok s1 =>
      match foldE processAmmSettlement s1 batch.ammSettlements with
      | .error e => .error e
      | .ok s2 => foldE queueRelease s2 batch.releases

/-- `executeRelease(releaseId)` (permissionless — the caller is ignored). -/
def executeRelease (s : LedgerState) (releaseId : B32) :
    Except Err LedgerState :=
  let r := lookupReleaseD s releaseId
  if r.stealthAddress = 0 then .error .IntentNotFound
  else if r.executed then .error .ReleaseAlreadyExecuted
  else if s.time < r.releaseTime then .error .ReleaseNotReady
  else
    let s1 :=
      { s with
        releases := mupd s.releases releaseId { r with executed := true }
        pendingReleaseIds := swapRemove s.pendingReleaseIds releaseId }
    match transferToken s1 r.token s1.hookAddr r.stealthAddress r.amount with
    | none => .error .TransferFailed
    | some s2 => .ok s2

-- ══════════════════════════════════════════════════════════════
-- Transition system over ledger operations
-- ══════════════════════════════════════════════════════════════

/-- One external interaction with the ledger: a transaction invoking one of the
public entry points, or the chain clock advancing. -/
inductive Act where
  | tick : Nat → Act
  | submit (caller tokenIn tokenOut amountIn : Nat)
      (viewingPubKey : List Nat) (deadline : Nat) : Act
  | cancel (caller : Nat) (intentId : B32) : Act
  | settle (caller : Nat) (batch : SettlementBatch) : Act
  | exec (caller : Nat) (releaseId : B32) : Act

/-- Apply one action; a reverting transaction leaves the state unchanged. -/
def step (s : LedgerState) : Act → LedgerState
  | .tick dt => { s with time := s.time + dt }
  | .submit c ti tout a vk d =>
    match submitIntent s c ti tout a vk d with
    | .ok (_, s') => s'
    | .error _ => s
  | .cancel c i =>
    match cancelIntent s c i with
    | .ok s' => s'
    | .error _ => s
  | .settle c b =>
    match settleAndQueue s c b with
    | .ok s' => s'
    | .error _ => s
  | .exec _ r =>
    match executeRelease s r with
    | .ok s' => s'
    | .error _ => s

/-- Run a sequence of actions. -/
def run (s : LedgerState) (acts : List Act) : LedgerState :=
  acts.foldl step s

-- ══════════════════════════════════════════════════════════════
-- TEE matching engine (src/tee-app/src/app.js)
-- ══════════════════════════════════════════════════════════════

/-!
The JavaScript matcher works on JSON intents; amounts are decimal strings
compared through `BigInt`, addresses are hex strings compared after
`toLowerCase()`.  Both are modelled as `Nat` (fixed-width hex strings compare
lexicographically exactly as their numeric values).  The cryptographic
primitives the Node `crypto` / `ethers` libraries provide are collected in a
`Crypto` structure; randomness is an explicit entropy stream (`List Nat`)
consumed one draw per random value, which is the standard deterministic model
of a CSPRNG.
-/

/-- The cryptographic primitives used by the TEE app: wallet generation from
one entropy draw (`ethers.Wallet.createRandom`), ECDH
(`SigningKey.computeSharedSecret`), SHA-256, the 12-byte nonce generator
(`crypto.randomBytes(12)`) and AES-256-GCM encryption (ciphertext and 16-byte
auth tag).  Byte strings are `List Nat`. -/
structure Crypto where
  walletAddr : Nat → Nat
  walletPriv : Nat → List Nat
  walletPub : Nat → List Nat
  ecdh : List Nat → List Nat → List Nat
  sha256 : List Nat → List Nat
  ivBytes : Nat → List Nat
  aesEnc : List Nat → List Nat → List Nat → List Nat
  aesTag : List Nat → List Nat → List Nat → List Nat

/-- Draw one value from the entropy stream. -/
def takeR : List Nat → Nat × List Nat
  | [] => (0, [])
  | n :: rest => (n, rest)

/-- `eciesEncrypt(plaintext, recipientPubKeyHex)` of `app.js`: generate an
ephemeral keypair, ECDH with the recipient's viewing key, derive the AES key
as SHA-256 of the raw shared secret, encrypt under a fresh 12-byte nonce with
AES-256-GCM, and return `ephPub || nonce || authTag || ciphertext`.
`eEntropy` and `ivEntropy` are the two random draws the function makes. -/
def eciesEncrypt (c : Crypto) (eEntropy ivEntropy : Nat)
    (plaintext recipientPub : List Nat) : List Nat :=
  let ephPriv := c.walletPriv eEntropy
  let ephPub := c.walletPub eEntropy
  let sharedSecret := c.ecdh ephPriv recipientPub
  let encryptionKey := c.sha256 sharedSecret
  let iv := c.ivBytes ivEntropy
  let encrypted := c.aesEnc encryptionKey iv plaintext
  let authTag := c.aesTag encryptionKey iv plaintext
  ephPub ++ iv ++ authTag ++ encrypted

/-- A JSON intent as consumed by the matcher (shape of the
`{intentId, sender, tokenIn, tokenOut, amountIn, viewingPubKey, deadline}`
records the relay passes in). -/
structure IntentJs where
  intentId : B32
  sender : Nat
  tokenIn : Nat
  tokenOut : Nat
  amountIn : Nat
  viewingPubKey : List Nat
  deadline : Nat
deriving DecidableEq, Repr

/-- The unordered token-pair key `[tokenIn, tokenOut].sort().join('-')`. -/
def pairKeyOf (i : IntentJs) : Nat × Nat :=
  if i.tokenIn ≤ i.tokenOut then (i.tokenIn, i.tokenOut) else (i.tokenOut, i.tokenIn)

/-- Whether the matcher labels an intent a "buy":
`tokenIn.toLowerCase() < tokenOut.toLowerCase()`. -/
def isBuyIntent (i : IntentJs) : Bool := i.tokenIn < i.tokenOut

/-- Insert an intent into the `pairs` object: group by pair key (JS object
keys iterate in insertion order, kept here as list order) and push onto the
group's `buys` or `sells` array. -/
def pushIntent (m : List ((Nat × Nat) × (List IntentJs × List IntentJs)))
    (i : IntentJs) : List ((Nat × Nat) × (List IntentJs × List IntentJs)) :=
  let k := pairKeyOf i
  match mlookup m k with
  | none =>
      m ++ [(k, if isBuyIntent i then ([i], []) else ([], [i]))]
  | some (bs, ss) =>
      mupd m k (if isBuyIntent i then (bs ++ [i], ss) else (bs, ss ++ [i]))

/-- Build the `pairs` grouping of `matchIntents`. -/
def buildPairs (intents : List IntentJs) :
    List ((Nat × Nat) × (List IntentJs × List IntentJs)) :=
  intents.foldl pushIntent []

/-- Boolean membership in the `matched` set (`Set.has` in the JS). -/
def memB : List B32 → B32 → Bool
  | [], _ => false
  | y :: ys, x => if y = x then true else memB ys x

/-- The `while (buyIdx < buys.length && sellIdx < sells.length)` loop of
`matchIntents`, one token-pair group: pair buys and sells FIFO at
`min(buy.amountIn, sell.amountIn)`, skipping already-matched intent ids. -/
def matchLoop (matched : List B32) (buys sells : List IntentJs) :
    List InternalMatch × List B32 :=
  match buys, sells with
  | [], _ => ([], matched)
  | _ :: _, [] => ([], matched)
  | b :: bs, sl :: ss =>
    if memB matched b.intentId then
      if memB matched sl.intentId then matchLoop matched bs ss
      else matchLoop matched bs (sl :: ss)
    else if memB matched sl.intentId then matchLoop matched (b :: bs) ss
    else
      let matchedAmount :=
        if b.amountIn < sl.amountIn then b.amountIn else sl.amountIn
      let (ims, m') :=
        matchLoop (b.intentId :: sl.intentId :: matched) bs ss
      (⟨b.intentId, sl.intentId, matchedAmount⟩ :: ims, m')
termination_by buys.length + sells.length

/-- Run `matchLoop` over every token-pair group, threading the global
`matched` set in group-insertion order. -/
def matchGroups (matched : List B32) :
    List ((Nat × Nat) × (List IntentJs × List IntentJs)) →
    List InternalMatch × List B32
  | [] => ([], matched)
  | (_, (bs, ss)) :: rest =>
    let (ims, m1) := matchLoop matched bs ss
    let (ims2, m2) := matchGroups m1 rest
    (ims ++ ims2, m2)

/-- `matchIntents(intents)` of `app.js`: greedy FIFO peer-to-peer matching per
unordered token pair, every unmatched intent becoming an AMM settlement with
an unset stealth address (the empty string, modelled as address `0`) and the
provisional `amountOut = amountIn`.  Returns
`(internalMatches, ammSettlements, matched)`. -/
def matchIntents (intents : List IntentJs) :
    List InternalMatch × List Settlement × List B32 :=
  let (internalMatches, matched) := matchGroups [] (buildPairs intents)
  let ammSettlements :=
    (intents.filter (fun i => ! memB matched i.intentId)).map
      (fun i => ⟨i.intentId, 0, i.amountIn, isBuyIntent i⟩)
  (internalMatches, ammSettlements, matched)

-- ══════════════════════════════════════════════════════════════
-- TEE release generation (src/tee-app/src/app.js)
-- ══════════════════════════════════════════════════════════════

/-- `intentMap[...]` lookup; JS object assignment means the last intent with a
given id wins. -/
def findIntent (intents : List IntentJs) (id : B32) : Option IntentJs :=
  intents.reverse.find? (fun i => i.intentId = id)

/-- Build one release for a settled intent side: fresh stealth wallet, random
delay `MIN_DELAY + randomInt(MAX_DELAY - MIN_DELAY + 1)`, and the
ECIES-wrapped stealth private key.  Consumes four entropy draws: stealth
wallet, `randomInt`, ephemeral ECIES wallet, AES-GCM nonce. -/
def mkRelease (c : Crypto) (rng : List Nat) (tokenOut amount : Nat)
    (viewingPubKey : List Nat) (intentId : B32) (currentTime : Nat) :
    PendingRelease × List Nat :=
  let (wE, r1) := takeR rng
  let (dE, r2) := takeR r1
  let (eE, r3) := takeR r2
  let (ivE, r4) := takeR r3
  let delay := MIN_DELAY + dE % (MAX_DELAY - MIN_DELAY + 1)
  (⟨tokenOut, c.walletAddr wE, amount, currentTime + delay,
    eciesEncrypt c eE ivE (c.walletPriv wE) viewingPubKey,
    intentId, false⟩, r4)

/-- The first loop of `generateReleases`: one release per matched side of each
internal match (buyer first, then seller), skipping ids absent from the
intent map. -/
def genMatchReleases (c : Crypto) (intents : List IntentJs) (currentTime : Nat) :
    List Nat → List InternalMatch → List PendingRelease × List Nat
  | rng, [] => ([], rng)
  | rng, m :: ms =>
    let (rs1, rng1) :=
      match findIntent intents m.buyIntentId with
      | some bi =>
        let (r, rng') :=
          mkRelease c rng bi.tokenOut m.matchedAmount bi.viewingPubKey
            m.buyIntentId currentTime
        ([r], rng')
      | none => ([], rng)
    let (rs2, rng2) :=
      match findIntent intents m.sellIntentId with
      | some si =>
        let (r, rng') :=
          mkRelease c rng1 si.tokenOut m.matchedAmount si.viewingPubKey
            m.sellIntentId currentTime
        ([r], rng')
      | none => ([], rng1)
    let (rest, rng3) := genMatchReleases c intents currentTime rng2 ms
    (rs1 ++ rs2 ++ rest, rng3)

/-- The second loop of `generateReleases`: one release per AMM settlement,
also writing the fresh stealth address back into the settlement record.
Returns `(releases, updated settlements, remaining entropy)`. -/
def genAmmReleases (c : Crypto) (intents : List IntentJs) (currentTime : Nat) :
    List Nat → List Settlement → List PendingRelease × List Settlement × List Nat
  | rng, [] => ([], [], rng)
  | rng, stl :: stls =>
    match findIntent intents stl.intentId with
    | none =>
      let (rs, stls', rng') := genAmmReleases c intents currentTime rng stls
      (rs, stl :: stls', rng')
    | some intent =>
      let (r, rng1) :=
        mkRelease c rng intent.tokenOut stl.amountOut intent.viewingPubKey
          stl.intentId currentTime
      let stl' := { stl with stealthAddress := r.stealthAddress }
      let (rs, stls', rng2) := genAmmReleases c intents currentTime rng1 stls
      (r :: rs, stl' :: stls', rng2)

/-- `generateReleases(intents, internalMatches, ammSettlements)` of `app.js`. -/
def generateReleases (c : Crypto) (rng : List Nat) (intents : List IntentJs)
    (internalMatches : List InternalMatch) (ammSettlements : List Settlement)
    (currentTime : Nat) :
    List PendingRelease × List Settlement × List Nat :=
  let (rs1, rng1) := genMatchReleases c intents currentTime rng internalMatches
  let (rs2, stls', rng2) := genAmmReleases c intents currentTime rng1 ammSettlements
  (rs1 ++ rs2, stls', rng2)

-- ══════════════════════════════════════════════════════════════
-- Framing lemmas: which state fields each operation can touch
-- ══════════════════════════════════════════════════════════════

theorem transferToken_fields {s s' : LedgerState} {token src dst amt : Nat}
    (h : transferToken s token src dst amt = some s') :
    s'.oracle = s.oracle ∧ s'.teeSigner = s.teeSigner ∧ s'.owner = s.owner ∧
    s'.hookAddr = s.hookAddr ∧ s'.intents = s.intents ∧ s'.releases = s.releases ∧
    s'.processedBatches = s.processedBatches ∧
    s'.pendingIntentIds = s.pendingIntentIds ∧
    s'.pendingReleaseIds = s.pendingReleaseIds ∧
    s'.intentNonce = s.intentNonce ∧ s'.time = s.time := by
  unfold transferToken at h
  split at h
  · cases h
  · injection h with h
    subst h
    simp [setBal]

theorem processInternalMatch_fields {s s' : LedgerState} {m : InternalMatch}
    (h : processInternalMatch s m = .ok s') :
    s'.oracle = s.oracle ∧ s'.teeSigner = s.teeSigner ∧ s'.owner = s.owner ∧
    s'.hookAddr = s.hookAddr ∧ s'.releases = s.releases ∧
    s'.processedBatches = s.processedBatches ∧
    s'.pendingReleaseIds = s.pendingReleaseIds ∧
    s'.intentNonce = s.intentNonce ∧ s'.time = s.time := by
  unfold processInternalMatch at h
  dsimp only at h
  split at h
  · cases h
  · split at h
    · cases h
    · split at h
      · cases h
      · split at h
        · cases h
        · rename_i s1 h1
          split at h
          · cases h
          · rename_i s2 h2
            injection h with h
            subst h
            obtain ⟨o1, t1, w1, hk1, i1, r1, p1, pi1, pr1, n1, tm1⟩ :=
              transferToken_fields h1
            obtain ⟨o2, t2, w2, hk2, i2, r2, p2, pi2, pr2, n2, tm2⟩ :=
              transferToken_fields h2
            simp_all

theorem processAmmSettlement_fields {s s' : LedgerState} {stl : Settlement}
    (h : processAmmSettlement s stl = .ok s') :
    s'.oracle = s.oracle ∧ s'.teeSigner = s.teeSigner ∧ s'.owner = s.owner ∧
    s'.hookAddr = s.hookAddr ∧ s'.releases = s.releases ∧
    s'.processedBatches = s.processedBatches ∧
    s'.pendingReleaseIds = s.pendingReleaseIds ∧
    s'.intentNonce = s.intentNonce ∧ s'.time = s.time := by
  unfold processAmmSettlement at h
  dsimp only at h
  split at h
  · cases h
  · split at h
    · cases h
    · split at h
      · cases h
      · split at h
        · cases h
        · rename_i s1 h1
          injection h with h
          subst h
          obtain ⟨o1, t1, w1, hk1, i1, r1, p1, pi1, pr1, n1, tm1⟩ :=
            transferToken_fields h1
          simp_all

theorem queueRelease_fields {s s' : LedgerState} {r : PendingRelease}
    (h : queueRelease s r = .ok s') :
    s'.oracle = s.oracle ∧ s'.teeSigner = s.teeSigner ∧ s'.owner = s.owner ∧
    s'.hookAddr = s.hookAddr ∧ s'.intents = s.intents ∧
    s'.processedBatches = s.processedBatches ∧
    s'.pendingIntentIds = s.pendingIntentIds ∧
    s'.intentNonce = s.intentNonce ∧ s'.balances = s.balances ∧
    s'.time = s.time := by
  unfold queueRelease at h
  split at h
  · cases h
  · split at h
    · cases h
    · injection h with h
      subst h
      simp

theorem executeRelease_fields {s s' : LedgerState} {rid : B32}
    (h : executeRelease s rid = .ok s') :
    s'.oracle = s.oracle ∧ s'.teeSigner = s.teeSigner ∧ s'.owner = s.owner ∧
    s'.hookAddr = s.hookAddr ∧ s'.intents = s.intents ∧
    s'.processedBatches = s.processedBatches ∧
    s'.pendingIntentIds = s.pendingIntentIds ∧
    s'.intentNonce = s.intentNonce ∧ s'.time = s.time := by
  unfold executeRelease at h
  dsimp only at h
  split at h
  · cases h
  · split at h
    · cases h
    · split at h
      · cases h
      · split at h
        · cases h
        · rename_i s2 h2
          injection h with h
          subst h
          obtain ⟨o2, t2, w2, hk2, i2, r2, p2, pi2, pr2, n2, tm2⟩ :=
            transferToken_fields h2
          simp_all

/-- A successful `foldE` preserves any state projection each step preserves. -/
theorem foldE_proj {α γ : Type} {f : LedgerState → α → Except Err LedgerState}
    (P : LedgerState → γ)
    (hf : ∀ s x s', f s x = .ok s' → P s' = P s) :
    ∀ (l : List α) (s s' : LedgerState), foldE f s l = .ok s' → P s' = P s := by
  intro l
  induction l with
  | nil =>
      intro s s' h
      unfold foldE at h
      injection h with h
      rw [h]
  | cons x xs ih =>
      intro s s' h
      unfold foldE at h
      cases hfx : f s x with
      | error e => rw [hfx] at h; cases h
      | ok s1 =>
          rw [hfx] at h
          rw [ih s1 s' h, hf s x s1 hfx]

/-- A successful `foldE` preserves any predicate each step preserves. -/
theorem foldE_mono {α : Type} {f : LedgerState → α → Except Err LedgerState}
    (Q : LedgerState → Prop)
    (hf : ∀ s x s', f s x = .ok s' → Q s → Q s') :
    ∀ (l : List α) (s s' : LedgerState), foldE f s l = .ok s' → Q s → Q s' := by
  intro l
  induction l with
  | nil =>
      intro s s' h hq
      unfold foldE at h
      injection h with h
      rwa [← h]
  | cons x xs ih =>
      intro s s' h hq
      unfold foldE at h
      cases hfx : f s x with
      | error e => rw [hfx] at h; cases h
      | ok s1 =>
          rw [hfx] at h
          exact ih s1 s' h (hf s x s1 hfx hq)

-- ══════════════════════════════════════════════════════════════
-- Settled-flag monotonicity and intent-id freshness
-- ══════════════════════════════════════════════════════════════

/-- The `settled` flag the contract stores for an intent id. -/
def settledAt (s : LedgerState) (id : B32) : Bool := (lookupIntentD s id).settled

/-- Freshness invariant: every intent id stored in the `intents` mapping was
minted by `submitIntent` with a nonce strictly below the current
`intentNonce`, so the next minted id is new.  (The spec: "collision-free by
construction of the nonce".) -/
def nonceInv (s : LedgerState) : Prop :=
  ∀ a b c d ts n,
    (mlookup s.intents (B32.iid a b c d ts n)).isSome = true → n < s.intentNonce

/-- Transactions with a plausible EVM caller: `msg.sender` of a `cancelIntent`
transaction is never the zero address. -/
def okAct : Act → Bool
  | .cancel c _ => c != 0
  | _ => true

theorem isSome_of_sender_ne {s : LedgerState} {id : B32}
    (h : ¬ (lookupIntentD s id).sender = 0) :
    (mlookup s.intents id).isSome = true := by
  unfold lookupIntentD at h
  cases hm : mlookup s.intents id with
  | none => rw [hm] at h; simp [defaultIntent] at h
  | some v => simp

theorem mlookup_mupd_isSome_of {α β : Type} [DecidableEq α]
    {l : List (α × β)} {k : α} {v : β}
    (hk : (mlookup l k).isSome = true) (k' : α)
    (h : (mlookup (mupd l k v) k').isSome = true) :
    (mlookup l k').isSome = true := by
  rcases mlookup_mupd_isSome l k k' v h with rfl | h2
  · exact hk
  · exact h2

theorem pim_settled_mono {s s' : LedgerState} {m : InternalMatch}
    (h : processInternalMatch s m = .ok s') (id : B32)
    (hs : settledAt s id = true) : settledAt s' id = true := by
  unfold processInternalMatch at h
  dsimp only at h
  split at h
  · cases h
  · split at h
    · cases h
    · split at h
      · cases h
      · split at h
        · cases h
        · rename_i s1 h1
          split at h
          · cases h
          · rename_i s2 h2
            injection h with h
            subst h
            have i1 := (transferToken_fields h1).2.2.2.2.1
            have i2 := (transferToken_fields h2).2.2.2.2.1
            simp only [settledAt, lookupIntentD] at hs ⊢
            by_cases hsl : id = m.sellIntentId
            · subst hsl
              simp [mlookup_mupd_self]
            · rw [mlookup_mupd_ne _ _ _ _ hsl]
              by_cases hb : id = m.buyIntentId
              · subst hb
                simp [mlookup_mupd_self]
              · rw [mlookup_mupd_ne _ _ _ _ hb, i2, i1]
                exact hs

theorem pas_settled_mono {s s' : LedgerState} {stl : Settlement}
    (h : processAmmSettlement s stl = .ok s') (id : B32)
    (hs : settledAt s id = true) : settledAt s' id = true := by
  unfold processAmmSettlement at h
  dsimp only at h
  split at h
  · cases h
  · split at h
    · cases h
    · split at h
      · cases h
      · split at h
        · cases h
        · rename_i s1 h1
          injection h with h
          subst h
          have i1 := (transferToken_fields h1).2.2.2.2.1
          simp only [settledAt, lookupIntentD] at hs ⊢
          by_cases hi : id = stl.intentId
          · subst hi
            simp [mlookup_mupd_self]
          · rw [mlookup_mupd_ne _ _ _ _ hi, i1]
            exact hs

theorem qr_settled_mono {s s' : LedgerState} {r : PendingRelease}
    (h : queueRelease s r = .ok s') (id : B32)
    (hs : settledAt s id = true) : settledAt s' id = true := by
  have hi := (queueRelease_fields h).2.2.2.2.1
  simpa [settledAt, lookupIntentD, hi] using hs

theorem cancel_settled_mono {s s' : LedgerState} {c : Nat} {i : B32}
    (h : cancelIntent s c i = .ok s') (id : B32)
    (hs : settledAt s id = true) : settledAt s' id = true := by
  unfold cancelIntent at h
  dsimp only at h
  split at h
  · cases h
  · split at h
    · cases h
    · injection h with h
      subst h
      simp only [settledAt, lookupIntentD] at hs ⊢
      by_cases hi : id = i
      · subst hi
        simp [mlookup_mupd_self]
      · rw [mlookup_mupd_ne _ _ _ _ hi]
        exact hs

theorem settle_settled_mono {s s' : LedgerState} {caller : Nat}
    {batch : SettlementBatch}
    (h : settleAndQueue s caller batch = .ok s') (id : B32)
    (hs : settledAt s id = true) : settledAt s' id = true := by
  unfold settleAndQueue at h
  split at h
  · cases h
  · split at h
    · cases h
    · split at h
      · cases h
      · dsimp only at h
        cases hf1 : foldE processInternalMatch
            { s with processedBatches := s.processedBatches ++ [batch.batchId] }
            batch.internalMatches with
        | error e => rw [hf1] at h; cases h
        | ok s1 =>
          rw [hf1] at h
          dsimp only at h
          cases hf2 : foldE processAmmSettlement s1 batch.ammSettlements with
          | error e => rw [hf2] at h; cases h
          | ok s2 =>
            rw [hf2] at h
            dsimp only at h
            have m1 : settledAt s1 id = true :=
              foldE_mono (fun t => settledAt t id = true)
                (fun t x t' hx ht => pim_settled_mono hx id ht)
                batch.internalMatches _ s1 hf1 hs
            have m2 : settledAt s2 id = true :=
              foldE_mono (fun t => settledAt t id = true)
                (fun t x t' hx ht => pas_settled_mono hx id ht)
                batch.ammSettlements s1 s2 hf2 m1
            exact foldE_mono (fun t => settledAt t id = true)
              (fun t x t' hx ht => qr_settled_mono hx id ht)
              batch.releases s2 s' h m2

theorem exec_settled_mono {s s' : LedgerState} {rid : B32}
    (h : executeRelease s rid = .ok s') (id : B32)
    (hs : settledAt s id = true) : settledAt s' id = true := by
  have hi := (executeRelease_fields h).2.2.2.2.1
  simpa [settledAt, lookupIntentD, hi] using hs

theorem submit_settled_mono {s s' : LedgerState}
    {c ti tout amt : Nat} {vk : List Nat} {d : Nat} {idn : B32}
    (h : submitIntent s c ti tout amt vk d = .ok (idn, s'))
    (hinv : nonceInv s) (id : B32)
    (hs : settledAt s id = true) : settledAt s' id = true := by
  unfold submitIntent at h
  dsimp only at h
  split at h
  · cases h
  · split at h
    · cases h
    · split at h
      · cases h
      · injection h with h
        injection h with h1 h2
        subst h2
        simp only [settledAt, lookupIntentD] at hs ⊢
        by_cases hid : id = B32.iid c ti tout amt s.time s.intentNonce
        · subst hid
          cases hm : mlookup s.intents (B32.iid c ti tout amt s.time s.intentNonce) with
          | none =>
            rw [hm] at hs
            simp [defaultIntent] at hs
          | some v =>
            have := hinv c ti tout amt s.time s.intentNonce (by rw [hm]; rfl)
            omega
        · rw [mlookup_mupd_ne _ _ _ _ hid]
          exact hs

theorem mlookup_mupd_isSome_mono {α β : Type} [DecidableEq α]
    {l : List (α × β)} {k : α} {v : β} {k' : α}
    (h : (mlookup l k').isSome = true) :
    (mlookup (mupd l k v) k').isSome = true := by
  by_cases hk : k' = k
  · subst hk
    rw [mlookup_mupd_self]
    rfl
  · rwa [mlookup_mupd_ne _ _ _ _ hk]

theorem pim_nonceInv {s s' : LedgerState} {m : InternalMatch}
    (h : processInternalMatch s m = .ok s') (hinv : nonceInv s) : nonceInv s' := by
  unfold processInternalMatch at h
  dsimp only at h
  split at h
  · cases h
  · rename_i hbuy
    split at h
    · cases h
    · rename_i hsell
      split at h
      · cases h
      · split at h
        · cases h
        · rename_i s1 h1
          split at h
          · cases h
          · rename_i s2 h2
            injection h with h
            subst h
            have i1 := (transferToken_fields h1).2.2.2.2.1
            have i2 := (transferToken_fields h2).2.2.2.2.1
            have n1 := (transferToken_fields h1).2.2.2.2.2.2.2.2.2.1
            have n2 := (transferToken_fields h2).2.2.2.2.2.2.2.2.2.1
            intro a b c d ts n hsome
            simp only at hsome ⊢
            rw [n2, n1]
            have hsellP : (mlookup (mupd s2.intents m.buyIntentId
                { lookupIntentD s m.buyIntentId with settled := true })
                m.sellIntentId).isSome = true := by
              apply mlookup_mupd_isSome_mono
              rw [i2, i1]
              exact isSome_of_sender_ne hsell
            have h3 := mlookup_mupd_isSome_of hsellP _ hsome
            have hbuyP : (mlookup s2.intents m.buyIntentId).isSome = true := by
              rw [i2, i1]
              exact isSome_of_sender_ne hbuy
            have h4 := mlookup_mupd_isSome_of hbuyP _ h3
            rw [i2, i1] at h4
            exact hinv a b c d ts n h4

theorem pas_nonceInv {s s' : LedgerState} {stl : Settlement}
    (h : processAmmSettlement s stl = .ok s') (hinv : nonceInv s) : nonceInv s' := by
  unfold processAmmSettlement at h
  dsimp only at h
  split at h
  · cases h
  · rename_i hsender
    split at h
    · cases h
    · split at h
      · cases h
      · split at h
        · cases h
        · rename_i s1 h1
          injection h with h
          subst h
          have i1 := (transferToken_fields h1).2.2.2.2.1
          have n1 := (transferToken_fields h1).2.2.2.2.2.2.2.2.2.1
          intro a b c d ts n hsome
          simp only at hsome ⊢
          rw [n1]
          have hP : (mlookup s1.intents stl.intentId).isSome = true := by
            rw [i1]
            exact isSome_of_sender_ne hsender
          have h4 := mlookup_mupd_isSome_of hP _ hsome
          rw [i1] at h4
          exact hinv a b c d ts n h4

theorem qr_nonceInv {s s' : LedgerState} {r : PendingRelease}
    (h : queueRelease s r = .ok s') (hinv : nonceInv s) : nonceInv s' := by
  have hi := (queueRelease_fields h).2.2.2.2.1
  have hn := (queueRelease_fields h).2.2.2.2.2.2.2.1
  intro a b c d ts n hsome
  rw [hi] at hsome
  rw [hn]
  exact hinv a b c d ts n hsome

theorem settle_nonceInv {s s' : LedgerState} {caller : Nat}
    {batch : SettlementBatch}
    (h : settleAndQueue s caller batch = .ok s') (hinv : nonceInv s) :
    nonceInv s' := by
  unfold settleAndQueue at h
  split at h
  · cases h
  · split at h
    · cases h
    · split at h
      · cases h
      · dsimp only at h
        cases hf1 : foldE processInternalMatch
            { s with processedBatches := s.processedBatches ++ [batch.batchId] }
            batch.internalMatches with
        | error e => rw [hf1] at h; cases h
        | ok s1 =>
          rw [hf1] at h
          dsimp only at h
          cases hf2 : foldE processAmmSettlement s1 batch.ammSettlements with
          | error e => rw [hf2] at h; cases h
          | ok s2 =>
            rw [hf2] at h
            dsimp only at h
            have hinv0 : nonceInv
                { s with processedBatches := s.processedBatches ++ [batch.batchId] } :=
              fun a b c d ts n hs => hinv a b c d ts n hs
            have m1 : nonceInv s1 :=
              foldE_mono nonceInv (fun t x t' hx ht => pim_nonceInv hx ht)
                batch.internalMatches _ s1 hf1 hinv0
            have m2 : nonceInv s2 :=
              foldE_mono nonceInv (fun t x t' hx ht => pas_nonceInv hx ht)
                batch.ammSettlements s1 s2 hf2 m1
            exact foldE_mono nonceInv (fun t x t' hx ht => qr_nonceInv hx ht)
              batch.releases s2 s' h m2

theorem cancel_nonceInv {s s' : LedgerState} {c : Nat} {i : B32}
    (h : cancelIntent s c i = .ok s') (hc : c ≠ 0) (hinv : nonceInv s) :
    nonceInv s' := by
  unfold cancelIntent at h
  dsimp only at h
  split at h
  · cases h
  · rename_i hsender
    split at h
    · cases h
    · injection h with h
      subst h
      intro a b c' d ts n hsome
      simp only at hsome ⊢
      have hP : (mlookup s.intents i).isSome = true := by
        apply isSome_of_sender_ne
        intro h0
        rw [not_not] at hsender
        rw [h0] at hsender
        exact hc hsender.symm
      have h4 := mlookup_mupd_isSome_of hP _ hsome
      exact hinv a b c' d ts n h4

theorem submit_nonceInv {s s' : LedgerState}
    {c ti tout amt : Nat} {vk : List Nat} {d : Nat} {idn : B32}
    (h : submitIntent s c ti tout amt vk d = .ok (idn, s'))
    (hinv : nonceInv s) : nonceInv s' := by
  unfold submitIntent at h
  dsimp only at h
  split at h
  · cases h
  · split at h
    · cases h
    · split at h
      · cases h
      · injection h with h
        injection h with h1 h2
        subst h2
        intro a b c' d' ts n hsome
        simp only at hsome ⊢
        rcases mlookup_mupd_isSome _ _ _ _ hsome with heq | hold
        · injection heq with e1 e2 e3 e4 e5 e6
          omega
        · have := hinv a b c' d' ts n hold
          omega

theorem exec_nonceInv {s s' : LedgerState} {rid : B32}
    (h : executeRelease s rid = .ok s') (hinv : nonceInv s) : nonceInv s' := by
  have hi := (executeRelease_fields h).2.2.2.2.1
  have hn := (executeRelease_fields h).2.2.2.2.2.2.2.1
  intro a b c d ts n hsome
  rw [hi] at hsome
  rw [hn]
  exact hinv a b c d ts n hsome

theorem step_nonceInv {s : LedgerState} {a : Act} (hok : okAct a = true)
    (hinv : nonceInv s) : nonceInv (step s a) := by
  cases a with
  | tick dt => exact fun a b c d ts n hs => hinv a b c d ts n hs
  | submit c ti tout amt vk d =>
    simp only [step]
    cases hsub : submitIntent s c ti tout amt vk d with
    | error e => exact hinv
    | ok p =>
      obtain ⟨idn, s'⟩ := p
      exact submit_nonceInv hsub hinv
  | cancel c i =>
    simp only [step]
    cases hc : cancelIntent s c i with
    | error e => exact hinv
    | ok s' =>
      have hcz : c ≠ 0 := by
        simp only [okAct, bne_iff_ne] at hok
        exact hok
      exact cancel_nonceInv hc hcz hinv
  | settle c b =>
    simp only [step]
    cases hs : settleAndQueue s c b with
    | error e => exact hinv
    | ok s' => exact settle_nonceInv hs hinv
  | exec c r =>
    simp only [step]
    cases he : executeRelease s r with
    | error e => exact hinv
    | ok s' => exact exec_nonceInv he hinv

theorem step_settled_mono {s : LedgerState} {a : Act}
    (hinv : nonceInv s) (id : B32) (hs : settledAt s id = true) :
    settledAt (step s a) id = true := by
  cases a with
  | tick dt => simpa [step, settledAt, lookupIntentD] using hs
  | submit c ti tout amt vk d =>
    simp only [step]
    cases hsub : submitIntent s c ti tout amt vk d with
    | error e => exact hs
    | ok p =>
      obtain ⟨idn, s'⟩ := p
      exact submit_settled_mono hsub hinv id hs
  | cancel c i =>
    simp only [step]
    cases hc : cancelIntent s c i with
    | error e => exact hs
    | ok s' => exact cancel_settled_mono hc id hs
  | settle c b =>
    simp only [step]
    cases hst : settleAndQueue s c b with
    | error e => exact hs
    | ok s' => exact settle_settled_mono hst id hs
  | exec c r =>
    simp only [step]
    cases he : executeRelease s r with
    | error e => exact hs
    | ok s' => exact exec_settled_mono he id hs

theorem run_nonceInv {s : LedgerState} {acts : List Act}
    (hok : ∀ a ∈ acts, okAct a = true) (hinv : nonceInv s) :
    nonceInv (run s acts) := by
  induction acts generalizing s with
  | nil => exact hinv
  | cons a as ih =>
    exact ih (fun x hx => hok x (List.mem_cons_of_mem a hx))
      (step_nonceInv (hok a (List.mem_cons_self a as)) hinv)

theorem run_settled_mono {s : LedgerState} {acts : List Act}
    (hok : ∀ a ∈ acts, okAct a = true) (hinv : nonceInv s) (id : B32)
    (hs : settledAt s id = true) : settledAt (run s acts) id = true := by
  induction acts generalizing s with
  | nil => exact hs
  | cons a as ih =>
    exact ih (fun x hx => hok x (List.mem_cons_of_mem a hx))
      (step_nonceInv (hok a (List.mem_cons_self a as)) hinv)
      (step_settled_mono hinv id hs)

-- Convenience projections of the framing lemmas

theorem pim_time {s s' : LedgerState} {m : InternalMatch}
    (h : processInternalMatch s m = .ok s') : s'.time = s.time :=
  (processInternalMatch_fields h).2.2.2.2.2.2.2.2

theorem pas_time {s s' : LedgerState} {stl : Settlement}
    (h : processAmmSettlement s stl = .ok s') : s'.time = s.time :=
  (processAmmSettlement_fields h).2.2.2.2.2.2.2.2

theorem qr_time {s s' : LedgerState} {r : PendingRelease}
    (h : queueRelease s r = .ok s') : s'.time = s.time :=
  (queueRelease_fields h).2.2.2.2.2.2.2.2.2

theorem pim_processed {s s' : LedgerState} {m : InternalMatch}
    (h : processInternalMatch s m = .ok s') :
    s'.processedBatches = s.processedBatches :=
  (processInternalMatch_fields h).2.2.2.2.2.1

theorem pas_processed {s s' : LedgerState} {stl : Settlement}
    (h : processAmmSettlement s stl = .ok s') :
    s'.processedBatches = s.processedBatches :=
  (processAmmSettlement_fields h).2.2.2.2.2.1

theorem qr_processed {s s' : LedgerState} {r : PendingRelease}
    (h : queueRelease s r = .ok s') :
    s'.processedBatches = s.processedBatches :=
  (queueRelease_fields h).2.2.2.2.2.1

theorem pim_releases {s s' : LedgerState} {m : InternalMatch}
    (h : processInternalMatch s m = .ok s') : s'.releases = s.releases :=
  (processInternalMatch_fields h).2.2.2.2.1

theorem pas_releases {s s' : LedgerState} {stl : Settlement}
    (h : processAmmSettlement s stl = .ok s') : s'.releases = s.releases :=
  (processAmmSettlement_fields h).2.2.2.2.1

theorem submit_fields {s s' : LedgerState}
    {c ti tout amt : Nat} {vk : List Nat} {d : Nat} {idn : B32}
    (h : submitIntent s c ti tout amt vk d = .ok (idn, s')) :
    s'.oracle = s.oracle ∧ s'.teeSigner = s.teeSigner ∧ s'.owner = s.owner ∧
    s'.hookAddr = s.hookAddr ∧ s'.releases = s.releases ∧
    s'.processedBatches = s.processedBatches ∧
    s'.pendingReleaseIds = s.pendingReleaseIds ∧
    s'.balances = s.balances ∧ s'.time = s.time := by
  unfold submitIntent at h
  dsimp only at h
  split at h
  · cases h
  · split at h
    · cases h
    · split at h
      · cases h
      · injection h with h
        injection h with h1 h2
        subst h2
        simp

theorem cancel_fields {s s' : LedgerState} {c : Nat} {i : B32}
    (h : cancelIntent s c i = .ok s') :
    s'.oracle = s.oracle ∧ s'.teeSigner = s.teeSigner ∧ s'.owner = s.owner ∧
    s'.hookAddr = s.hookAddr ∧ s'.releases = s.releases ∧
    s'.processedBatches = s.processedBatches ∧
    s'.pendingReleaseIds = s.pendingReleaseIds ∧
    s'.balances = s.balances ∧ s'.time = s.time := by
  unfold cancelIntent at h
  dsimp only at h
  split at h
  · cases h
  · split at h
    · cases h
    · injection h with h
      subst h
      simp

/-- A successful `settleAndQueue` appends exactly the batch id to
`processedBatches`. -/
theorem settle_processed {s s' : LedgerState} {caller : Nat}
    {batch : SettlementBatch}
    (h : settleAndQueue s caller batch = .ok s') :
    s'.processedBatches = s.processedBatches ++ [batch.batchId] := by
  unfold settleAndQueue at h
  split at h
  · cases h
  · split at h
    · cases h
    · split at h
      · cases h
      · dsimp only at h
        cases hf1 : foldE processInternalMatch
            { s with processedBatches := s.processedBatches ++ [batch.batchId] }
            batch.internalMatches with
        | error e => rw [hf1] at h; cases h
        | ok s1 =>
          rw [hf1] at h
          dsimp only at h
          cases hf2 : foldE processAmmSettlement s1 batch.ammSettlements with
          | error e => rw [hf2] at h; cases h
          | ok s2 =>
            rw [hf2] at h
            dsimp only at h
            have p1 := foldE_proj (fun t => t.processedBatches)
              (fun t x t' hx => pim_processed hx) batch.internalMatches _ s1 hf1
            have p2 := foldE_proj (fun t => t.processedBatches)
              (fun t x t' hx => pas_processed hx) batch.ammSettlements s1 s2 hf2
            have p3 := foldE_proj (fun t => t.processedBatches)
              (fun t x t' hx => qr_processed hx) batch.releases s2 s' h
            dsimp only at p1 p2 p3
            rw [p3, p2, p1]

theorem step_settle_error {s : LedgerState} {caller : Nat}
    {batch : SettlementBatch} {e : Err}
    (h : settleAndQueue s caller batch = .error e) :
    step s (.settle caller batch) = s := by
  simp [step, h]

-- ══════════════════════════════════════════════════════════════
-- C1 — batch replay protection
-- ══════════════════════════════════════════════════════════════

/-- C1: for every ledger state and every batch whose `batchId` is already in
`processedBatches`, `settleAndQueue` rejects the batch and leaves all ledger
state unchanged; moreover `processedBatches` only ever grows under any
operation, and every accepted batch has its id recorded in
`processedBatches` — so a given `batchId` is accepted at most once. -/
theorem C1_replay_protection (s : LedgerState) (caller : Nat)
    (batch : SettlementBatch) (h : batch.batchId ∈ s.processedBatches) :
    (∃ e, settleAndQueue s caller batch = .error e) ∧
    step s (.settle caller batch) = s ∧
    (∀ (s' : LedgerState) (a : Act) (x : B32),
       x ∈ s'.processedBatches → x ∈ (step s' a).processedBatches) ∧
    (∀ (s₂ s₂' : LedgerState) (c₂ : Nat) (b₂ : SettlementBatch),
       settleAndQueue s₂ c₂ b₂ = .ok s₂' → b₂.batchId ∈ s₂'.processedBatches) := by
  have hrej : ∃ e, settleAndQueue s caller batch = .error e := by
    unfold settleAndQueue
    by_cases hc : caller = s.oracle
    · exact ⟨.BatchAlreadyProcessed, by simp [hc, h]⟩
    · exact ⟨.OnlyOracle, by simp [hc]⟩
  obtain ⟨e, he⟩ := hrej
  refine ⟨⟨e, he⟩, step_settle_error he, ?_, ?_⟩
  · intro s' a x hx
    cases a with
    | tick dt => exact hx
    | submit c ti tout amt vk d =>
      simp only [step]
      cases hsub : submitIntent s' c ti tout amt vk d with
      | error e2 => exact hx
      | ok p =>
        obtain ⟨idn, st⟩ := p
        rw [(submit_fields hsub).2.2.2.2.2.1]
        exact hx
    | cancel c i =>
      simp only [step]
      cases hcan : cancelIntent s' c i with
      | error e2 => exact hx
      | ok st =>
        rw [(cancel_fields hcan).2.2.2.2.2.1]
        exact hx
    | settle c b =>
      simp only [step]
      cases hst : settleAndQueue s' c b with
      | error e2 => exact hx
      | ok st =>
        rw [settle_processed hst]
        exact List.mem_append_left _ hx
    | exec c r =>
      simp only [step]
      cases hex : executeRelease s' r with
      | error e2 => exact hx
      | ok st =>
        rw [(executeRelease_fields hex).2.2.2.2.2.1]
        exact hx
  · intro s₂ s₂' c₂ b₂ hok
    rw [settle_processed hok]
    exact List.mem_append_right _ (List.mem_singleton.mpr rfl)

/-- C1 witness: on a concrete state with batch id `raw 1` already processed,
the duplicate batch is rejected, the state is untouched, and the processed set
survives a clock tick. -/
theorem C1_replay_protection_witness :
    (∃ e, settleAndQueue
        { initState 10 7 1 99 [] 0 with processedBatches := [B32.raw 1] } 10
        ⟨[], [], [], B32.raw 1, 0, ⟨⟨[], [], [], B32.raw 1, 0⟩, 7⟩⟩ = .error e) ∧
    step { initState 10 7 1 99 [] 0 with processedBatches := [B32.raw 1] }
      (.settle 10 ⟨[], [], [], B32.raw 1, 0, ⟨⟨[], [], [], B32.raw 1, 0⟩, 7⟩⟩) =
      { initState 10 7 1 99 [] 0 with processedBatches := [B32.raw 1] } ∧
    B32.raw 1 ∈ (step { initState 10 7 1 99 [] 0 with processedBatches := [B32.raw 1] }
      (.tick 5)).processedBatches := by
  have h := C1_replay_protection
    { initState 10 7 1 99 [] 0 with processedBatches := [B32.raw 1] } 10
    ⟨[], [], [], B32.raw 1, 0, ⟨⟨[], [], [], B32.raw 1, 0⟩, 7⟩⟩ (by decide)
  exact ⟨h.1, h.2.1, h.2.2.1 _ (.tick 5) (B32.raw 1) (by decide)⟩

-- ══════════════════════════════════════════════════════════════
-- C2 — TEE signature verification
-- ══════════════════════════════════════════════════════════════

/-- C2: a batch whose `teeSignature` does not recover (over the canonical hash
of the five content fields) to the configured `teeSigner` is rejected by
`settleAndQueue` with no state change: no intent is settled, no token moves
and no release is queued. -/
theorem C2_signature_verification (s : LedgerState) (caller : Nat)
    (batch : SettlementBatch)
    (h : recover (computeBatchHash batch) batch.teeSignature ≠ s.teeSigner) :
    (∃ e, settleAndQueue s caller batch = .error e) ∧
    step s (.settle caller batch) = s ∧
    (∀ id, lookupIntentD (step s (.settle caller batch)) id = lookupIntentD s id) ∧
    (∀ id, lookupReleaseD (step s (.settle caller batch)) id = lookupReleaseD s id) ∧
    (∀ token holder, getBal (step s (.settle caller batch)) token holder =
       getBal s token holder) := by
  have hrej : ∃ e, settleAndQueue s caller batch = .error e := by
    unfold settleAndQueue
    by_cases hc : caller = s.oracle
    · by_cases hp : batch.batchId ∈ s.processedBatches
      · exact ⟨.BatchAlreadyProcessed, by simp [hc, hp]⟩
      · exact ⟨.InvalidSignature, by simp [hc, hp, h]⟩
    · exact ⟨.OnlyOracle, by simp [hc]⟩
  obtain ⟨e, he⟩ := hrej
  have hstep := step_settle_error he
  exact ⟨⟨e, he⟩, hstep, fun id => by rw [hstep], fun id => by rw [hstep],
    fun token holder => by rw [hstep]⟩

/-- C2 witness: a batch signed by key `8` while the configured signer is `7`
is rejected on the concrete initial state, leaving it unchanged. -/
theorem C2_signature_verification_witness :
    (∃ e, settleAndQueue (initState 10 7 1 99 [] 0) 10
        ⟨[], [], [], B32.raw 1, 0, ⟨⟨[], [], [], B32.raw 1, 0⟩, 8⟩⟩ = .error e) ∧
    step (initState 10 7 1 99 [] 0)
      (.settle 10 ⟨[], [], [], B32.raw 1, 0, ⟨⟨[], [], [], B32.raw 1, 0⟩, 8⟩⟩) =
      initState 10 7 1 99 [] 0 ∧
    lookupIntentD (step (initState 10 7 1 99 [] 0)
        (.settle 10 ⟨[], [], [], B32.raw 1, 0, ⟨⟨[], [], [], B32.raw 1, 0⟩, 8⟩⟩))
        (B32.raw 9) =
      lookupIntentD (initState 10 7 1 99 [] 0) (B32.raw 9) := by
  have h := C2_signature_verification (initState 10 7 1 99 [] 0) 10
    ⟨[], [], [], B32.raw 1, 0, ⟨⟨[], [], [], B32.raw 1, 0⟩, 8⟩⟩ (by decide)
  exact ⟨h.1, h.2.1, h.2.2.1 (B32.raw 9)⟩

-- ══════════════════════════════════════════════════════════════
-- C3 — release delay window
-- ══════════════════════════════════════════════════════════════

/-- An out-of-window release fails the delay validation however far into the
batch it sits, so the enclosing `foldE` fails. -/
theorem foldE_queueRelease_err {t : Nat} {r : PendingRelease}
    (hviol : r.releaseTime < t + MIN_DELAY ∨ r.releaseTime > t + MAX_DELAY) :
    ∀ (l : List PendingRelease) (s : LedgerState), r ∈ l → s.time = t →
      ∃ e, foldE queueRelease s l = .error e := by
  intro l
  induction l with
  | nil => intro s hmem _; cases hmem
  | cons x xs ih =>
    intro s hmem ht
    cases hfx : queueRelease s x with
    | error e => exact ⟨e, by simp only [foldE, hfx]⟩
    | ok s1 =>
      rcases List.mem_cons.mp hmem with rfl | hmem2
      · exfalso
        unfold queueRelease at hfx
        split at hfx
        · cases hfx
        · split at hfx
          · cases hfx
          · rename_i h1 h2
            rw [ht] at h1 h2
            rcases hviol with hv | hv
            · exact h1 hv
            · exact h2 hv
      · have ht1 : s1.time = t := by rw [qr_time hfx, ht]
        obtain ⟨e, he⟩ := ih s1 hmem2 ht1
        exact ⟨e, by simp only [foldE, hfx]; exact he⟩

/-- C3: `_queueRelease` succeeds exactly within the delay window — every
enqueued release satisfies `MIN_DELAY ≤ releaseTime − enqueueTime ≤ MAX_DELAY`
(`enqueueTime` being the ledger time at batch acceptance) — and a batch
containing any out-of-window release descriptor is rejected whole, with no
state change. -/
theorem C3_release_delay_window (s : LedgerState) :
    (∀ (r : PendingRelease) (s' : LedgerState), queueRelease s r = .ok s' →
       s.time + MIN_DELAY ≤ r.releaseTime ∧ r.releaseTime ≤ s.time + MAX_DELAY ∧
       MIN_DELAY ≤ r.releaseTime - s.time ∧ r.releaseTime - s.time ≤ MAX_DELAY) ∧
    (∀ (caller : Nat) (batch : SettlementBatch) (r : PendingRelease),
       r ∈ batch.releases →
       (r.releaseTime < s.time + MIN_DELAY ∨ r.releaseTime > s.time + MAX_DELAY) →
       (∃ e, settleAndQueue s caller batch = .error e) ∧
       step s (.settle caller batch) = s) := by
  constructor
  · intro r s' h
    unfold queueRelease at h
    split at h
    · cases h
    · split at h
      · cases h
      · rename_i h1 h2
        omega
  · intro caller batch r hmem hviol
    have hrej : ∃ e, settleAndQueue s caller batch = .error e := by
      unfold settleAndQueue
      by_cases hc : caller = s.oracle
      · by_cases hp : batch.batchId ∈ s.processedBatches
        · exact ⟨.BatchAlreadyProcessed, by simp [hc, hp]⟩
        · by_cases hsig :
              recover (computeBatchHash batch) batch.teeSignature = s.teeSigner
          · simp only [hc, hp, hsig, not_true, not_false_iff, if_neg, if_pos,
              if_false, if_true]
            cases hf1 : foldE processInternalMatch
                { s with processedBatches := s.processedBatches ++ [batch.batchId] }
                batch.internalMatches with
            | error e => exact ⟨e, rfl⟩
            | ok s1 =>
              dsimp only
              have ht1 : s1.time = s.time := by
                have := foldE_proj (fun u => u.time) (fun u x u' hx => pim_time hx)
                  batch.internalMatches _ s1 hf1
                dsimp only at this
                exact this
              cases hf2 : foldE processAmmSettlement s1 batch.ammSettlements with
              | error e => exact ⟨e, rfl⟩
              | ok s2 =>
                dsimp only
                have ht2 : s2.time = s.time := by
                  rw [foldE_proj (fun u => u.time) (fun u x u' hx => pas_time hx)
                    batch.ammSettlements s1 s2 hf2, ht1]
                exact foldE_queueRelease_err hviol batch.releases s2 hmem ht2
          · exact ⟨.InvalidSignature, by simp [hc, hp, hsig]⟩
      · exact ⟨.OnlyOracle, by simp [hc]⟩
    obtain ⟨e, he⟩ := hrej
    exact ⟨⟨e, he⟩, step_settle_error he⟩

-- ══════════════════════════════════════════════════════════════
-- C4 — executeRelease: gating, effects, idempotence
-- ══════════════════════════════════════════════════════════════

theorem firstIdx_none_not_mem : ∀ {l : List B32} {x : B32},
    firstIdx l x = none → x ∉ l := by
  intro l
  induction l with
  | nil => intro x h; simp
  | cons y ys ih =>
    intro x h
    unfold firstIdx at h
    by_cases hyx : y = x
    · rw [if_pos hyx] at h; cases h
    · rw [if_neg hyx] at h
      have h2 : firstIdx ys x = none := by
        cases hfi : firstIdx ys x with
        | none => rfl
        | some j => rw [hfi] at h; cases h
      intro hx
      rcases List.mem_cons.mp hx with rfl | hx2
      · exact hyx rfl
      · exact ih h2 hx2

theorem firstIdx_some_lt : ∀ {l : List B32} {x : B32} {i : Nat},
    firstIdx l x = some i → i < l.length := by
  intro l
  induction l with
  | nil => intro x i h; cases h
  | cons y ys ih =>
    intro x i h
    unfold firstIdx at h
    by_cases hyx : y = x
    · rw [if_pos hyx] at h
      injection h with h
      simp [← h]
    · rw [if_neg hyx] at h
      cases hfi : firstIdx ys x with
      | none => rw [hfi] at h; cases h
      | some j =>
        rw [hfi] at h
        simp only [Option.map_some'] at h
        injection h with h
        have hj := ih hfi
        simp only [List.length_cons]
        omega

theorem getLastD_mem (l : List B32) (d : B32) (h : l ≠ []) :
    l.getLast?.getD d ∈ l := by
  induction l with
  | nil => cases h rfl
  | cons y ys ih =>
    cases ys with
    | nil => simp [List.getLast?]
    | cons z zs =>
      rw [List.getLast?_cons_cons]
      exact List.mem_cons_of_mem y (ih (by simp))

theorem dropLast_cons_ne {α : Type} (a : α) (l : List α) (h : l ≠ []) :
    (a :: l).dropLast = a :: l.dropLast := by
  cases l with
  | nil => cases h rfl
  | cons b bs => rfl

/-- Swap-with-last removal really removes the id when it occurs at most once
in the index. -/
theorem swapRemove_not_mem : ∀ (l : List B32) (x : B32),
    l.count x ≤ 1 → x ∉ swapRemove l x := by
  intro l
  induction l with
  | nil => intro x h; simp [swapRemove, firstIdx]
  | cons y ys ih =>
    intro x h
    by_cases hyx : y = x
    · subst hyx
      have hc : ys.count y = 0 := by
        simp [List.count_cons] at h
        omega
      have hnm : y ∉ ys := by rwa [List.count_eq_zero] at hc
      simp only [swapRemove, firstIdx, eq_self_iff_true, if_true]
      cases ys with
      | nil => simp
      | cons z zs =>
        have hm : (y :: z :: zs).getLast?.getD y ∈ z :: zs := by
          rw [List.getLast?_cons_cons]
          exact getLastD_mem (z :: zs) y (by simp)
        rw [List.set_cons_zero, dropLast_cons_ne _ _ (by simp)]
        intro hx
        rcases List.mem_cons.mp hx with hx1 | hx2
        · rw [hx1] at hnm
          exact hnm hm
        · exact hnm (List.dropLast_subset _ hx2)
    · have hcy : ys.count x ≤ 1 := by
        simp [List.count_cons] at h ⊢
        omega
      simp only [swapRemove, firstIdx, if_neg hyx]
      cases hfi : firstIdx ys x with
      | none =>
        simp only [Option.map_none']
        intro hx
        rcases List.mem_cons.mp hx with rfl | hx2
        · exact hyx rfl
        · exact firstIdx_none_not_mem hfi hx2
      | some i =>
        simp only [Option.map_some']
        have hys : ys ≠ [] := by
          cases ys with
          | nil => cases hfi
          | cons z zs => simp
        have hgl : (y :: ys).getLast?.getD x = ys.getLast?.getD x := by
          cases ys with
          | nil => cases hys rfl
          | cons z zs => rw [List.getLast?_cons_cons]
        rw [List.set_cons_succ, hgl]
        have hne2 : ys.set i (ys.getLast?.getD x) ≠ [] := by
          cases ys with
          | nil => cases hys rfl
          | cons z zs => cases i <;> simp
        rw [dropLast_cons_ne _ _ hne2]
        intro hx
        rcases List.mem_cons.mp hx with rfl | hx2
        · exact hyx rfl
        · have hsr : swapRemove ys x = (ys.set i (ys.getLast?.getD x)).dropLast := by
            simp [swapRemove, hfi]
          exact ih x hcy (hsr ▸ hx2)

theorem getBal_setBal_self (s : LedgerState) (t h v : Nat) :
    getBal (setBal s t h v) t h = v := by
  simp [getBal, setBal, mlookup_mupd_self]

theorem getBal_setBal_ne (s : LedgerState) (t h t' h' v : Nat)
    (hne : (t', h') ≠ (t, h)) : getBal (setBal s t h v) t' h' = getBal s t' h' := by
  simp [getBal, setBal, mlookup_mupd_ne _ _ _ _ hne]

theorem step_exec_error {s : LedgerState} {caller : Nat} {rid : B32} {e : Err}
    (h : executeRelease s rid = .error e) : step s (.exec caller rid) = s := by
  simp [step, h]

theorem executeRelease_ok_char {s : LedgerState} {rid : B32}
    (hne : ¬ (lookupReleaseD s rid).stealthAddress = 0)
    (hexec : (lookupReleaseD s rid).executed = false)
    (htime : (lookupReleaseD s rid).releaseTime ≤ s.time)
    (hbal : (lookupReleaseD s rid).amount ≤
      getBal s (lookupReleaseD s rid).token s.hookAddr) :
    executeRelease s rid = .ok (
      setBal
        (setBal
          { s with
            releases := mupd s.releases rid
              { lookupReleaseD s rid with executed := true }
            pendingReleaseIds := swapRemove s.pendingReleaseIds rid }
          (lookupReleaseD s rid).token s.hookAddr
          (getBal s (lookupReleaseD s rid).token s.hookAddr -
            (lookupReleaseD s rid).amount))
        (lookupReleaseD s rid).token (lookupReleaseD s rid).stealthAddress
        (getBal (setBal
          { s with
            releases := mupd s.releases rid
              { lookupReleaseD s rid with executed := true }
            pendingReleaseIds := swapRemove s.pendingReleaseIds rid }
          (lookupReleaseD s rid).token s.hookAddr
          (getBal s (lookupReleaseD s rid).token s.hookAddr -
            (lookupReleaseD s rid).amount))
          (lookupReleaseD s rid).token (lookupReleaseD s rid).stealthAddress +
          (lookupReleaseD s rid).amount)) := by
  unfold executeRelease
  dsimp only
  rw [if_neg hne, if_neg (by simp [hexec]), if_neg (not_lt.mpr htime)]
  unfold transferToken
  rw [if_neg]
  · rfl
  · exact not_lt.mpr hbal

/-- C4: `executeRelease` fails with no state change when the release does not
exist (zero stealth address), is already executed, or is not yet due; in the
complementary case (given the custodied balance the protocol maintains) it
transfers `amount` of `token` to `stealthAddress`, marks the release
executed, swap-removes it from the pending index, and any repeat call on the
same id fails with `ReleaseAlreadyExecuted` and moves nothing. -/
theorem C4_execute_release (s : LedgerState) (caller : Nat) (rid : B32) :
    (((lookupReleaseD s rid).stealthAddress = 0 ∨
      (lookupReleaseD s rid).executed = true ∨
      s.time < (lookupReleaseD s rid).releaseTime) →
      (∃ e, executeRelease s rid = .error e) ∧ step s (.exec caller rid) = s) ∧
    (¬ (lookupReleaseD s rid).stealthAddress = 0 →
     (lookupReleaseD s rid).executed = false →
     (lookupReleaseD s rid).releaseTime ≤ s.time →
     (lookupReleaseD s rid).amount ≤
        getBal s (lookupReleaseD s rid).token s.hookAddr →
     ∃ s', executeRelease s rid = .ok s' ∧
       lookupReleaseD s' rid = { lookupReleaseD s rid with executed := true } ∧
       s'.pendingReleaseIds = swapRemove s.pendingReleaseIds rid ∧
       (s.pendingReleaseIds.count rid ≤ 1 → rid ∉ s'.pendingReleaseIds) ∧
       ((lookupReleaseD s rid).stealthAddress ≠ s.hookAddr →
         getBal s' (lookupReleaseD s rid).token
             (lookupReleaseD s rid).stealthAddress =
           getBal s (lookupReleaseD s rid).token
             (lookupReleaseD s rid).stealthAddress +
             (lookupReleaseD s rid).amount ∧
         getBal s' (lookupReleaseD s rid).token s.hookAddr =
           getBal s (lookupReleaseD s rid).token s.hookAddr -
             (lookupReleaseD s rid).amount) ∧
       executeRelease s' rid = .error .ReleaseAlreadyExecuted ∧
       step s' (.exec caller rid) = s') := by
  constructor
  · intro hfail
    have hrej : ∃ e, executeRelease s rid = .error e := by
      by_cases h0 : (lookupReleaseD s rid).stealthAddress = 0
      · exact ⟨.IntentNotFound, by unfold executeRelease; dsimp only; rw [if_pos h0]⟩
      · by_cases h1 : (lookupReleaseD s rid).executed = true
        · exact ⟨.ReleaseAlreadyExecuted, by
            unfold executeRelease; dsimp only; rw [if_neg h0, if_pos h1]⟩
        · have h2 : s.time < (lookupReleaseD s rid).releaseTime := by
            rcases hfail with a | b | c
            · exact absurd a h0
            · exact absurd b h1
            · exact c
          exact ⟨.ReleaseNotReady, by
            unfold executeRelease; dsimp only; rw [if_neg h0, if_neg h1, if_pos h2]⟩
    obtain ⟨e, he⟩ := hrej
    exact ⟨⟨e, he⟩, step_exec_error he⟩
  · intro hne hexec htime hbal
    have hchar := executeRelease_ok_char hne hexec htime hbal
    have hlook : lookupReleaseD
        (setBal
          (setBal
            { s with
              releases := mupd s.releases rid
                { lookupReleaseD s rid with executed := true }
              pendingReleaseIds := swapRemove s.pendingReleaseIds rid }
            (lookupReleaseD s rid).token s.hookAddr
            (getBal s (lookupReleaseD s rid).token s.hookAddr -
              (lookupReleaseD s rid).amount))
          (lookupReleaseD s rid).token (lookupReleaseD s rid).stealthAddress
          (getBal (setBal
            { s with
              releases := mupd s.releases rid
                { lookupReleaseD s rid with executed := true }
              pendingReleaseIds := swapRemove s.pendingReleaseIds rid }
            (lookupReleaseD s rid).token s.hookAddr
            (getBal s (lookupReleaseD s rid).token s.hookAddr -
              (lookupReleaseD s rid).amount))
            (lookupReleaseD s rid).token (lookupReleaseD s rid).stealthAddress +
            (lookupReleaseD s rid).amount)) rid =
        { lookupReleaseD s rid with executed := true } := by
      simp [lookupReleaseD, setBal, mlookup_mupd_self]
    have herr : executeRelease
        (setBal
          (setBal
            { s with
              releases := mupd s.releases rid
                { lookupReleaseD s rid with executed := true }
              pendingReleaseIds := swapRemove s.pendingReleaseIds rid }
            (lookupReleaseD s rid).token s.hookAddr
            (getBal s (lookupReleaseD s rid).token s.hookAddr -
              (lookupReleaseD s rid).amount))
          (lookupReleaseD s rid).token (lookupReleaseD s rid).stealthAddress
          (getBal (setBal
            { s with
              releases := mupd s.releases rid
                { lookupReleaseD s rid with executed := true }
              pendingReleaseIds := swapRemove s.pendingReleaseIds rid }
            (lookupReleaseD s rid).token s.hookAddr
            (getBal s (lookupReleaseD s rid).token s.hookAddr -
              (lookupReleaseD s rid).amount))
            (lookupReleaseD s rid).token (lookupReleaseD s rid).stealthAddress +
            (lookupReleaseD s rid).amount)) rid =
        .error .ReleaseAlreadyExecuted := by
      unfold executeRelease
      dsimp only
      rw [hlook]
      rw [if_neg hne]
      rfl
    refine ⟨_, hchar, hlook, ?_, ?_, ?_, herr, step_exec_error herr⟩
    · simp [setBal]
    · intro hcnt
      simp only [setBal]
      exact swapRemove_not_mem _ _ hcnt
    · intro hsh
      constructor
      · rw [getBal_setBal_self]
        rw [getBal_setBal_ne _ _ _ _ _ _ (by simp [hsh])]
        simp [getBal, setBal]
      · rw [getBal_setBal_ne _ _ _ _ _ _ (by simp [Ne.symm hsh])]
        rw [getBal_setBal_self]

/-- C4 witness: a concrete ready release (time 200 ≥ releaseTime 60, hook
holds 100 ≥ 40 of token 1) executes once and then refuses to execute again. -/
theorem C4_execute_release_witness :
    ∃ s', executeRelease
        ⟨10, 7, 1, 99, [],
         [(B32.rid (B32.raw 3) 5 60, ⟨1, 5, 40, 60, [], B32.raw 3, false⟩)],
         [], [], [B32.rid (B32.raw 3) 5 60], 0, [((1, 99), 100)], 200⟩
        (B32.rid (B32.raw 3) 5 60) = .ok s' ∧
      executeRelease s' (B32.rid (B32.raw 3) 5 60) =
        .error .ReleaseAlreadyExecuted := by
  obtain ⟨s', hok, _, _, _, _, herr, _⟩ :=
    (C4_execute_release
      ⟨10, 7, 1, 99, [],
       [(B32.rid (B32.raw 3) 5 60, ⟨1, 5, 40, 60, [], B32.raw 3, false⟩)],
       [], [], [B32.rid (B32.raw 3) 5 60], 0, [((1, 99), 100)], 200⟩
      3 (B32.rid (B32.raw 3) 5 60)).2
      (by decide) (by decide) (by decide) (by decide)
  exact ⟨s', hok, herr⟩

-- ══════════════════════════════════════════════════════════════
-- C9 — the release pool and duplicate identity triples
-- ══════════════════════════════════════════════════════════════

theorem qr_releases_other {s s' : LedgerState} {r : PendingRelease} {rid : B32}
    (h : queueRelease s r = .ok s')
    (hne : B32.rid r.intentId r.stealthAddress r.releaseTime ≠ rid) :
    mlookup s'.releases rid = mlookup s.releases rid := by
  unfold queueRelease at h
  split at h
  · cases h
  · split at h
    · cases h
    · injection h with h
      subst h
      simp only
      exact mlookup_mupd_ne _ _ _ _ (Ne.symm hne)

theorem foldE_qr_releases_other {rid : B32} :
    ∀ (l : List PendingRelease) (s s' : LedgerState),
      foldE queueRelease s l = .ok s' →
      (∀ rel ∈ l, B32.rid rel.intentId rel.stealthAddress rel.releaseTime ≠ rid) →
      mlookup s'.releases rid = mlookup s.releases rid := by
  intro l
  induction l with
  | nil =>
    intro s s' h _
    unfold foldE at h
    injection h with h
    rw [h]
  | cons x xs ih =>
    intro s s' h hne
    unfold foldE at h
    cases hfx : queueRelease s x with
    | error e => rw [hfx] at h; cases h
    | ok s1 =>
      rw [hfx] at h
      rw [ih s1 s' h (fun rel hr => hne rel (List.mem_cons_of_mem x hr)),
        qr_releases_other hfx (hne x (List.mem_cons_self x xs))]

theorem exec_releases_char {s s' : LedgerState} {rid2 : B32}
    (h : executeRelease s rid2 = .ok s') (rid : B32) :
    mlookup s'.releases rid =
      if rid2 = rid then some { lookupReleaseD s rid2 with executed := true }
      else mlookup s.releases rid := by
  unfold executeRelease at h
  dsimp only at h
  split at h
  · cases h
  · split at h
    · cases h
    · split at h
      · cases h
      · split at h
        · cases h
        · rename_i s2 h2
          injection h with h
          subst h
          have hr := (transferToken_fields h2).2.2.2.2.2.1
          rw [hr]
          simp only
          by_cases he : rid2 = rid
          · subst he
            rw [if_pos rfl, mlookup_mupd_self]
          · rw [if_neg he, mlookup_mupd_ne _ _ _ _ (Ne.symm he)]

/-- C9 counterexample data: two TEE-signed batches whose single releases share
the identity triple `(intentId = raw 3, stealthAddress = 5, releaseTime = 60)`
but carry different payout data (token 1 / amount 40 vs token 2 / amount 41). -/
def cexInit : LedgerState := initState 10 7 1 99 [] 0

def cexBatch1 : SettlementBatch :=
  ⟨[], [], [⟨1, 5, 40, 60, [], B32.raw 3, false⟩], B32.raw 1, 0,
   ⟨⟨[], [], [⟨1, 5, 40, 60, [], B32.raw 3, false⟩], B32.raw 1, 0⟩, 7⟩⟩

def cexBatch2 : SettlementBatch :=
  ⟨[], [], [⟨2, 5, 41, 60, [], B32.raw 3, false⟩], B32.raw 2, 0,
   ⟨⟨[], [], [⟨2, 5, 41, 60, [], B32.raw 3, false⟩], B32.raw 2, 0⟩, 7⟩⟩

/-- C9 counterexample: after the first accepted batch the pool stores the
release `(token 1, amount 40)` under its id; a second accepted batch with the
same identity triple overwrites it with `(token 2, amount 41)` — the first
release's recorded data is lost although no `executeRelease` consumed it, and
the pending index now holds the id twice. -/
theorem C9_overwrite_counterexample :
    mlookup (run cexInit [.settle 10 cexBatch1]).releases
        (B32.rid (B32.raw 3) 5 60) =
      some ⟨1, 5, 40, 60, [], B32.raw 3, false⟩ ∧
    mlookup (run cexInit [.settle 10 cexBatch1, .settle 10 cexBatch2]).releases
        (B32.rid (B32.raw 3) 5 60) =
      some ⟨2, 5, 41, 60, [], B32.raw 3, false⟩ ∧
    (run cexInit [.settle 10 cexBatch1, .settle 10 cexBatch2]).pendingReleaseIds =
      [B32.rid (B32.raw 3) 5 60, B32.rid (B32.raw 3) 5 60] := by
  refine ⟨?_, ?_, ?_⟩ <;> decide

/-- C9 (amended): a stored release's payout data (`token`, `amount`,
`encryptedStealthKey`, together with its identity fields) survives every
single ledger operation — `executeRelease` only flips its `executed` flag —
PROVIDED no settled batch enqueues a release with the same
`(intentId, stealthAddress, releaseTime)` identity triple; such a duplicate
enqueue overwrites the stored record (see the counterexample). -/
theorem C9_release_data_preserved (s : LedgerState) (a : Act) (rid : B32)
    (r : PendingRelease) (hl : mlookup s.releases rid = some r)
    (hnodup : ∀ (caller : Nat) (batch : SettlementBatch), a = .settle caller batch →
       ∀ rel ∈ batch.releases,
         B32.rid rel.intentId rel.stealthAddress rel.releaseTime ≠ rid) :
    ∃ r', mlookup (step s a).releases rid = some r' ∧
      r'.token = r.token ∧ r'.amount = r.amount ∧
      r'.encryptedStealthKey = r.encryptedStealthKey ∧
      r'.releaseTime = r.releaseTime ∧ r'.stealthAddress = r.stealthAddress ∧
      r'.intentId = r.intentId := by
  cases a with
  | tick dt => exact ⟨r, hl, rfl, rfl, rfl, rfl, rfl, rfl⟩
  | submit c ti tout amt vk d =>
    simp only [step]
    cases hsub : submitIntent s c ti tout amt vk d with
    | error e => exact ⟨r, hl, rfl, rfl, rfl, rfl, rfl, rfl⟩
    | ok p =>
      obtain ⟨idn, st⟩ := p
      rw [(submit_fields hsub).2.2.2.2.1]
      exact ⟨r, hl, rfl, rfl, rfl, rfl, rfl, rfl⟩
  | cancel c i =>
    simp only [step]
    cases hcan : cancelIntent s c i with
    | error e => exact ⟨r, hl, rfl, rfl, rfl, rfl, rfl, rfl⟩
    | ok st =>
      rw [(cancel_fields hcan).2.2.2.2.1]
      exact ⟨r, hl, rfl, rfl, rfl, rfl, rfl, rfl⟩
  | exec c rid2 =>
    simp only [step]
    cases hex : executeRelease s rid2 with
    | error e => exact ⟨r, hl, rfl, rfl, rfl, rfl, rfl, rfl⟩
    | ok st =>
      rw [exec_releases_char hex rid]
      by_cases he : rid2 = rid
      · subst he
        rw [if_pos rfl]
        have hrd : lookupReleaseD s rid2 = r := by
          rw [lookupReleaseD, hl]
          rfl
        rw [hrd]
        exact ⟨_, rfl, rfl, rfl, rfl, rfl, rfl, rfl⟩
      · rw [if_neg he]
        exact ⟨r, hl, rfl, rfl, rfl, rfl, rfl, rfl⟩
  | settle c b =>
    simp only [step]
    cases hst : settleAndQueue s c b with
    | error e => exact ⟨r, hl, rfl, rfl, rfl, rfl, rfl, rfl⟩
    | ok st =>
      have hne := hnodup c b rfl
      unfold settleAndQueue at hst
      split at hst
      · cases hst
      · split at hst
        · cases hst
        · split at hst
          · cases hst
          · dsimp only at hst
            cases hf1 : foldE processInternalMatch
                { s with processedBatches := s.processedBatches ++ [b.batchId] }
                b.internalMatches with
            | error e => rw [hf1] at hst; cases hst
            | ok s1 =>
              rw [hf1] at hst
              dsimp only at hst
              cases hf2 : foldE processAmmSettlement s1 b.ammSettlements with
              | error e => rw [hf2] at hst; cases hst
              | ok s2 =>
                rw [hf2] at hst
                dsimp only at hst
                have r1 : s1.releases = s.releases := by
                  have := foldE_proj (fun u => u.releases)
                    (fun u x u' hx => pim_releases hx) b.internalMatches _ s1 hf1
                  dsimp only at this
                  exact this
                have r2 : s2.releases = s1.releases :=
                  foldE_proj (fun u => u.releases)
                    (fun u x u' hx => pas_releases hx) b.ammSettlements s1 s2 hf2
                have r3 : mlookup st.releases rid = mlookup s2.releases rid :=
                  foldE_qr_releases_other b.releases s2 st hst hne
                refine ⟨r, ?_, rfl, rfl, rfl, rfl, rfl, rfl⟩
                rw [r3, r2, r1]
                exact hl

/-- C9 witness: a single stored release survives a clock tick unchanged. -/
theorem C9_release_data_preserved_witness :
    ∃ r', mlookup (step
        ⟨10, 7, 1, 99, [],
         [(B32.rid (B32.raw 3) 5 60, ⟨1, 5, 40, 60, [], B32.raw 3, false⟩)],
         [], [], [B32.rid (B32.raw 3) 5 60], 0, [], 0⟩
        (.tick 5)).releases (B32.rid (B32.raw 3) 5 60) = some r' ∧
      r'.token = 1 ∧ r'.amount = 40 ∧
      r'.encryptedStealthKey = ([] : List Nat) ∧
      r'.releaseTime = 60 ∧ r'.stealthAddress = 5 ∧ r'.intentId = B32.raw 3 := by
  obtain ⟨r', h1, h2, h3, h4, h5, h6, h7⟩ :=
    C9_release_data_preserved
      ⟨10, 7, 1, 99, [],
       [(B32.rid (B32.raw 3) 5 60, ⟨1, 5, 40, 60, [], B32.raw 3, false⟩)],
       [], [], [B32.rid (B32.raw 3) 5 60], 0, [], 0⟩
      (.tick 5) (B32.rid (B32.raw 3) 5 60) ⟨1, 5, 40, 60, [], B32.raw 3, false⟩
      (by decide) (by intro caller batch h; cases h)
  exact ⟨r', h1, h2, h3, h4, h5, h6, h7⟩

-- ══════════════════════════════════════════════════════════════
-- C5 — intent settledness is monotone
-- ══════════════════════════════════════════════════════════════

/-- C5: over every reachable ledger history (any sequence of submit / cancel /
settle / execute / clock-tick transactions with plausible callers), an
intent's `settled` flag is monotone: once true it stays true under any
further operations, and every later attempt to cancel it, to settle it inside
an internal match, or to settle it through an AMM settlement fails. -/
theorem C5_settled_monotone (o tw ow hk : Nat) (bal : List ((Nat × Nat) × Nat))
    (t0 : Nat) (acts1 acts2 : List Act)
    (h1 : ∀ a ∈ acts1, okAct a = true) (h2 : ∀ a ∈ acts2, okAct a = true)
    (id : B32)
    (hset : settledAt (run (initState o tw ow hk bal t0) acts1) id = true) :
    settledAt (run (run (initState o tw ow hk bal t0) acts1) acts2) id = true ∧
    (∀ caller, ∃ e,
       cancelIntent (run (initState o tw ow hk bal t0) acts1) caller id =
         .error e) ∧
    (∀ m : InternalMatch, m.buyIntentId = id ∨ m.sellIntentId = id →
       ∃ e, processInternalMatch (run (initState o tw ow hk bal t0) acts1) m =
         .error e) ∧
    (∀ stl : Settlement, stl.intentId = id →
       ∃ e, processAmmSettlement (run (initState o tw ow hk bal t0) acts1) stl =
         .error e) := by
  have hinv0 : nonceInv (initState o tw ow hk bal t0) := by
    intro a b c d ts n hsome
    simp [initState, mlookup] at hsome
  have hinv1 : nonceInv (run (initState o tw ow hk bal t0) acts1) :=
    run_nonceInv h1 hinv0
  have hsettled : (lookupIntentD (run (initState o tw ow hk bal t0) acts1) id).settled
      = true := hset
  refine ⟨run_settled_mono h2 hinv1 id hset, ?_, ?_, ?_⟩
  · intro caller
    by_cases hc :
        (lookupIntentD (run (initState o tw ow hk bal t0) acts1) id).sender = caller
    · exact ⟨.IntentAlreadySettled, by
        unfold cancelIntent
        dsimp only
        rw [if_neg (not_not_intro hc), if_pos hsettled]⟩
    · exact ⟨.IntentNotFound, by
        unfold cancelIntent
        dsimp only
        rw [if_pos hc]⟩
  · intro m hm
    by_cases hb0 :
        (lookupIntentD (run (initState o tw ow hk bal t0) acts1) m.buyIntentId).sender = 0
    · exact ⟨.IntentNotFound, by
        unfold processInternalMatch
        dsimp only
        rw [if_pos hb0]⟩
    · by_cases hs0 :
          (lookupIntentD (run (initState o tw ow hk bal t0) acts1) m.sellIntentId).sender = 0
      · exact ⟨.IntentNotFound, by
          unfold processInternalMatch
          dsimp only
          rw [if_neg hb0, if_pos hs0]⟩
      · have hso :
            (lookupIntentD (run (initState o tw ow hk bal t0) acts1) m.buyIntentId).settled
              = true ∨
            (lookupIntentD (run (initState o tw ow hk bal t0) acts1) m.sellIntentId).settled
              = true := by
          rcases hm with h | h
          · exact Or.inl (by rw [h]; exact hsettled)
          · exact Or.inr (by rw [h]; exact hsettled)
        exact ⟨.IntentAlreadySettled, by
          unfold processInternalMatch
          dsimp only
          rw [if_neg hb0, if_neg hs0, if_pos hso]⟩
  · intro stl hstl
    by_cases hi0 :
        (lookupIntentD (run (initState o tw ow hk bal t0) acts1) stl.intentId).sender = 0
    · exact ⟨.IntentNotFound, by
        unfold processAmmSettlement
        dsimp only
        rw [if_pos hi0]⟩
    · exact ⟨.IntentAlreadySettled, by
        unfold processAmmSettlement
        dsimp only
        rw [if_neg hi0, if_pos (by rw [hstl]; exact hsettled)]⟩

/-- C5 witness: submit an intent (caller 3) and cancel it; the settled flag
survives a clock tick and every further settle/cancel attempt fails. -/
theorem C5_settled_monotone_witness :
    settledAt (run (run (initState 10 7 1 99 [] 0)
        [.submit 3 1 2 5 (List.replicate 65 0) 10,
         .cancel 3 (B32.iid 3 1 2 5 0 0)]) [.tick 5])
      (B32.iid 3 1 2 5 0 0) = true ∧
    (∃ e, cancelIntent (run (initState 10 7 1 99 [] 0)
        [.submit 3 1 2 5 (List.replicate 65 0) 10,
         .cancel 3 (B32.iid 3 1 2 5 0 0)]) 3 (B32.iid 3 1 2 5 0 0) = .error e) ∧
    (∃ e, processAmmSettlement (run (initState 10 7 1 99 [] 0)
        [.submit 3 1 2 5 (List.replicate 65 0) 10,
         .cancel 3 (B32.iid 3 1 2 5 0 0)]) ⟨B32.iid 3 1 2 5 0 0, 0, 5, true⟩ =
      .error e) := by
  obtain ⟨ha, hb, hc, hd⟩ :=
    C5_settled_monotone 10 7 1 99 [] 0
      [.submit 3 1 2 5 (List.replicate 65 0) 10,
       .cancel 3 (B32.iid 3 1 2 5 0 0)] [.tick 5]
      (by decide) (by decide) (B32.iid 3 1 2 5 0 0) (by decide)
  exact ⟨ha, hb 3, hd ⟨B32.iid 3 1 2 5 0 0, 0, 5, true⟩ rfl⟩

-- ══════════════════════════════════════════════════════════════
-- C10 — deadline enforced only on the AMM-settlement path
-- ══════════════════════════════════════════════════════════════

theorem getBal_eq_of_balances {s₁ s₂ : LedgerState}
    (h : s₁.balances = s₂.balances) (t a : Nat) :
    getBal s₁ t a = getBal s₂ t a := by
  unfold getBal
  rw [h]

/-- C10: `_processInternalMatch` performs no deadline check — a match whose
buy intent is already expired (`time > deadline`) still pulls
`matchedAmount` from the buyer and marks both intents settled — whereas
`_processAmmSettlement` on that same expired intent fails the whole batch
with `IntentExpired`. -/
theorem C10_deadline_only_on_amm_path (s : LedgerState) (m : InternalMatch)
    (stl : Settlement)
    (hbuy : ¬ (lookupIntentD s m.buyIntentId).sender = 0)
    (hsell : ¬ (lookupIntentD s m.sellIntentId).sender = 0)
    (hbs : (lookupIntentD s m.buyIntentId).settled = false)
    (hss : (lookupIntentD s m.sellIntentId).settled = false)
    (hexp : s.time > (lookupIntentD s m.buyIntentId).deadline)
    (hdiff : (lookupIntentD s m.buyIntentId).sender ≠
      (lookupIntentD s m.sellIntentId).sender)
    (hbh : (lookupIntentD s m.buyIntentId).sender ≠ s.hookAddr)
    (hsh : (lookupIntentD s m.sellIntentId).sender ≠ s.hookAddr)
    (hbal1 : m.matchedAmount ≤
      getBal s (lookupIntentD s m.buyIntentId).tokenIn
        (lookupIntentD s m.buyIntentId).sender)
    (hbal2 : m.matchedAmount ≤
      getBal s (lookupIntentD s m.sellIntentId).tokenIn
        (lookupIntentD s m.sellIntentId).sender)
    (hstl : stl.intentId = m.buyIntentId) :
    (∃ s', processInternalMatch s m = .ok s' ∧
       (lookupIntentD s' m.buyIntentId).settled = true ∧
       (lookupIntentD s' m.sellIntentId).settled = true ∧
       getBal s' (lookupIntentD s m.buyIntentId).tokenIn
           (lookupIntentD s m.buyIntentId).sender =
         getBal s (lookupIntentD s m.buyIntentId).tokenIn
           (lookupIntentD s m.buyIntentId).sender - m.matchedAmount) ∧
    processAmmSettlement s stl = .error .IntentExpired := by
  have hbsne : m.buyIntentId ≠ m.sellIntentId := by
    intro h
    rw [h] at hdiff
    exact hdiff rfl
  constructor
  · -- internal match succeeds despite the expired deadline
    have h1 : transferToken s (lookupIntentD s m.buyIntentId).tokenIn
        (lookupIntentD s m.buyIntentId).sender s.hookAddr m.matchedAmount =
        some (setBal
          (setBal s (lookupIntentD s m.buyIntentId).tokenIn
            (lookupIntentD s m.buyIntentId).sender
            (getBal s (lookupIntentD s m.buyIntentId).tokenIn
              (lookupIntentD s m.buyIntentId).sender - m.matchedAmount))
          (lookupIntentD s m.buyIntentId).tokenIn s.hookAddr
          (getBal (setBal s (lookupIntentD s m.buyIntentId).tokenIn
            (lookupIntentD s m.buyIntentId).sender
            (getBal s (lookupIntentD s m.buyIntentId).tokenIn
              (lookupIntentD s m.buyIntentId).sender - m.matchedAmount))
            (lookupIntentD s m.buyIntentId).tokenIn s.hookAddr +
            m.matchedAmount)) := by
      unfold transferToken
      rw [if_neg (not_lt.mpr hbal1)]
    set S1 := setBal
        (setBal s (lookupIntentD s m.buyIntentId).tokenIn
          (lookupIntentD s m.buyIntentId).sender
          (getBal s (lookupIntentD s m.buyIntentId).tokenIn
            (lookupIntentD s m.buyIntentId).sender - m.matchedAmount))
        (lookupIntentD s m.buyIntentId).tokenIn s.hookAddr
        (getBal (setBal s (lookupIntentD s m.buyIntentId).tokenIn
          (lookupIntentD s m.buyIntentId).sender
          (getBal s (lookupIntentD s m.buyIntentId).tokenIn
            (lookupIntentD s m.buyIntentId).sender - m.matchedAmount))
          (lookupIntentD s m.buyIntentId).tokenIn s.hookAddr +
          m.matchedAmount) with hS1def
    have hS1bal_ss : getBal S1 (lookupIntentD s m.sellIntentId).tokenIn
        (lookupIntentD s m.sellIntentId).sender =
        getBal s (lookupIntentD s m.sellIntentId).tokenIn
          (lookupIntentD s m.sellIntentId).sender := by
      rw [hS1def]
      rw [getBal_setBal_ne _ _ _ _ _ _ (by simp [hsh])]
      rw [getBal_setBal_ne _ _ _ _ _ _
        (by intro hp; exact Ne.symm hdiff (congrArg Prod.snd hp))]
    have hS1bal_bs : getBal S1 (lookupIntentD s m.buyIntentId).tokenIn
        (lookupIntentD s m.buyIntentId).sender =
        getBal s (lookupIntentD s m.buyIntentId).tokenIn
          (lookupIntentD s m.buyIntentId).sender - m.matchedAmount := by
      rw [hS1def]
      rw [getBal_setBal_ne _ _ _ _ _ _ (by simp [hbh])]
      rw [getBal_setBal_self]
    have hS1hook : S1.hookAddr = s.hookAddr := by
      rw [hS1def]
      simp [setBal]
    have h2 : transferToken S1 (lookupIntentD s m.sellIntentId).tokenIn
        (lookupIntentD s m.sellIntentId).sender S1.hookAddr m.matchedAmount =
        some (setBal
          (setBal S1 (lookupIntentD s m.sellIntentId).tokenIn
            (lookupIntentD s m.sellIntentId).sender
            (getBal S1 (lookupIntentD s m.sellIntentId).tokenIn
              (lookupIntentD s m.sellIntentId).sender - m.matchedAmount))
          (lookupIntentD s m.sellIntentId).tokenIn S1.hookAddr
          (getBal (setBal S1 (lookupIntentD s m.sellIntentId).tokenIn
            (lookupIntentD s m.sellIntentId).sender
            (getBal S1 (lookupIntentD s m.sellIntentId).tokenIn
              (lookupIntentD s m.sellIntentId).sender - m.matchedAmount))
            (lookupIntentD s m.sellIntentId).tokenIn S1.hookAddr +
            m.matchedAmount)) := by
      unfold transferToken
      rw [if_neg]
      exact not_lt.mpr (by rw [hS1bal_ss]; exact hbal2)
    set S2 := setBal
        (setBal S1 (lookupIntentD s m.sellIntentId).tokenIn
          (lookupIntentD s m.sellIntentId).sender
          (getBal S1 (lookupIntentD s m.sellIntentId).tokenIn
            (lookupIntentD s m.sellIntentId).sender - m.matchedAmount))
        (lookupIntentD s m.sellIntentId).tokenIn S1.hookAddr
        (getBal (setBal S1 (lookupIntentD s m.sellIntentId).tokenIn
          (lookupIntentD s m.sellIntentId).sender
          (getBal S1 (lookupIntentD s m.sellIntentId).tokenIn
            (lookupIntentD s m.sellIntentId).sender - m.matchedAmount))
          (lookupIntentD s m.sellIntentId).tokenIn S1.hookAddr +
          m.matchedAmount) with hS2def
    have hS2bal_bs : getBal S2 (lookupIntentD s m.buyIntentId).tokenIn
        (lookupIntentD s m.buyIntentId).sender =
        getBal s (lookupIntentD s m.buyIntentId).tokenIn
          (lookupIntentD s m.buyIntentId).sender - m.matchedAmount := by
      rw [hS2def, hS1hook]
      rw [getBal_setBal_ne _ _ _ _ _ _ (by simp [hbh])]
      rw [getBal_setBal_ne _ _ _ _ _ _
        (by intro hp; exact hdiff (congrArg Prod.snd hp))]
      exact hS1bal_bs
    have hnos : ¬ ((lookupIntentD s m.buyIntentId).settled = true ∨
        (lookupIntentD s m.sellIntentId).settled = true) := by
      simp [hbs, hss]
    have hpim : ∃ s', processInternalMatch s m = .ok s' ∧
        s'.intents = mupd (mupd S2.intents m.buyIntentId
          { lookupIntentD s m.buyIntentId with settled := true }) m.sellIntentId
          { lookupIntentD s m.sellIntentId with settled := true } ∧
        s'.balances = S2.balances := by
      unfold processInternalMatch
      dsimp only
      rw [if_neg hbuy, if_neg hsell, if_neg hnos, h1]
      dsimp only
      rw [h2]
      exact ⟨_, rfl, rfl, rfl⟩
    obtain ⟨s', hok, hint, hbalEq⟩ := hpim
    refine ⟨s', hok, ?_, ?_, ?_⟩
    · rw [lookupIntentD, hint,
        mlookup_mupd_ne _ _ _ _ hbsne, mlookup_mupd_self]
      rfl
    · rw [lookupIntentD, hint, mlookup_mupd_self]
      rfl
    · rw [getBal_eq_of_balances hbalEq]
      exact hS2bal_bs
  · -- AMM settlement on the same expired intent reverts
    unfold processAmmSettlement
    dsimp only
    rw [hstl]
    rw [if_neg hbuy, if_neg (by simp [hbs]), if_pos hexp]

/-- C10 witness: with intents expired at time 100 (deadline 50), the internal
match still settles both sides and pulls 60 of token 1 from the buyer, while
the AMM settlement on the same intent reverts with `IntentExpired`. -/
theorem C10_deadline_only_on_amm_path_witness :
    (∃ s', processInternalMatch
        ⟨10, 7, 1, 99,
         [(B32.raw 21, ⟨3, 1, 2, 100, [], 50, 0, false⟩),
          (B32.raw 22, ⟨4, 2, 1, 60, [], 50, 0, false⟩)],
         [], [], [B32.raw 21, B32.raw 22], [], 0,
         [((1, 3), 100), ((2, 4), 100)], 100⟩
        ⟨B32.raw 21, B32.raw 22, 60⟩ = .ok s' ∧
       (lookupIntentD s' (B32.raw 21)).settled = true ∧
       (lookupIntentD s' (B32.raw 22)).settled = true ∧
       getBal s' 1 3 = 40) ∧
    processAmmSettlement
        ⟨10, 7, 1, 99,
         [(B32.raw 21, ⟨3, 1, 2, 100, [], 50, 0, false⟩),
          (B32.raw 22, ⟨4, 2, 1, 60, [], 50, 0, false⟩)],
         [], [], [B32.raw 21, B32.raw 22], [], 0,
         [((1, 3), 100), ((2, 4), 100)], 100⟩
        ⟨B32.raw 21, 0, 100, true⟩ = .error .IntentExpired := by
  obtain ⟨⟨s', hok, hs1, hs2, hb⟩, herr⟩ :=
    C10_deadline_only_on_amm_path
      ⟨10, 7, 1, 99,
       [(B32.raw 21, ⟨3, 1, 2, 100, [], 50, 0, false⟩),
        (B32.raw 22, ⟨4, 2, 1, 60, [], 50, 0, false⟩)],
       [], [], [B32.raw 21, B32.raw 22], [], 0,
       [((1, 3), 100), ((2, 4), 100)], 100⟩
      ⟨B32.raw 21, B32.raw 22, 60⟩ ⟨B32.raw 21, 0, 100, true⟩
      (by decide) (by decide) (by decide) (by decide) (by decide) (by decide)
      (by decide) (by decide) (by decide) (by decide) rfl
  exact ⟨⟨s', hok, hs1, hs2, hb⟩, herr⟩

/-- C3 witness: a properly signed batch carrying a release with
`releaseTime = 0` (below `now + MIN_DELAY`) is rejected whole on the concrete
initial state. -/
theorem C3_release_delay_window_witness :
    (∃ e, settleAndQueue (initState 10 7 1 99 [] 0) 10
        ⟨[], [], [⟨1, 5, 40, 0, [], B32.raw 3, false⟩], B32.raw 4, 0,
         ⟨⟨[], [], [⟨1, 5, 40, 0, [], B32.raw 3, false⟩], B32.raw 4, 0⟩, 7⟩⟩ =
        .error e) ∧
    step (initState 10 7 1 99 [] 0)
      (.settle 10 ⟨[], [], [⟨1, 5, 40, 0, [], B32.raw 3, false⟩], B32.raw 4, 0,
        ⟨⟨[], [], [⟨1, 5, 40, 0, [], B32.raw 3, false⟩], B32.raw 4, 0⟩, 7⟩⟩) =
      initState 10 7 1 99 [] 0 :=
  (C3_release_delay_window (initState 10 7 1 99 [] 0)).2 10
    ⟨[], [], [⟨1, 5, 40, 0, [], B32.raw 3, false⟩], B32.raw 4, 0,
     ⟨⟨[], [], [⟨1, 5, 40, 0, [], B32.raw 3, false⟩], B32.raw 4, 0⟩, 7⟩⟩
    ⟨1, 5, 40, 0, [], B32.raw 3, false⟩ (by decide) (by decide)

-- ══════════════════════════════════════════════════════════════
-- C7 — matching determinism
-- ══════════════════════════════════════════════════════════════

/-- C7: the matching engine is a pure function of the ordered input intent
list — two runs on the same list yield identical internal matches and AMM
settlements (the JS grouping object and matched set are embedded as
insertion-ordered lists, so no iteration-order nondeterminism exists). -/
theorem C7_matching_deterministic (intents1 intents2 : List IntentJs)
    (h : intents1 = intents2) :
    (matchIntents intents1).1 = (matchIntents intents2).1 ∧
    (matchIntents intents1).2.1 = (matchIntents intents2).2.1 := by
  rw [h]
  exact ⟨rfl, rfl⟩

/-- C7 witness: two runs on a concrete one-intent list agree. -/
theorem C7_matching_deterministic_witness :
    (matchIntents [⟨B32.raw 1, 3, 1, 2, 100, [], 50⟩]).1 =
      (matchIntents [⟨B32.raw 1, 3, 1, 2, 100, [], 50⟩]).1 ∧
    (matchIntents [⟨B32.raw 1, 3, 1, 2, 100, [], 50⟩]).2.1 =
      (matchIntents [⟨B32.raw 1, 3, 1, 2, 100, [], 50⟩]).2.1 :=
  C7_matching_deterministic [⟨B32.raw 1, 3, 1, 2, 100, [], 50⟩]
    [⟨B32.raw 1, 3, 1, 2, 100, [], 50⟩] rfl

-- ══════════════════════════════════════════════════════════════
-- C8 — ECIES ciphertext wire format
-- ══════════════════════════════════════════════════════════════

/-- C8: for every plaintext and recipient key, the blob produced by
`eciesEncrypt` is exactly `ephPub (65 bytes) ‖ nonce (12 bytes) ‖
authTag (16 bytes) ‖ ciphertext`, and the AES-256-GCM key fed to the cipher
is `SHA-256(raw ECDH shared secret)` with no salt or info string — given the
primitives' length contracts (uncompressed pubkey 65 bytes, nonce 12 bytes,
GCM tag 16 bytes). -/
theorem C8_ecies_wire_format (c : Crypto) (eE ivE : Nat) (pt pub : List Nat)
    (hpub : (c.walletPub eE).length = 65)
    (hiv : (c.ivBytes ivE).length = 12)
    (htag : (c.aesTag (c.sha256 (c.ecdh (c.walletPriv eE) pub))
      (c.ivBytes ivE) pt).length = 16) :
    eciesEncrypt c eE ivE pt pub =
      c.walletPub eE ++ c.ivBytes ivE ++
      c.aesTag (c.sha256 (c.ecdh (c.walletPriv eE) pub)) (c.ivBytes ivE) pt ++
      c.aesEnc (c.sha256 (c.ecdh (c.walletPriv eE) pub)) (c.ivBytes ivE) pt ∧
    (eciesEncrypt c eE ivE pt pub).take 65 = c.walletPub eE ∧
    ((eciesEncrypt c eE ivE pt pub).drop 65).take 12 = c.ivBytes ivE ∧
    ((eciesEncrypt c eE ivE pt pub).drop 77).take 16 =
      c.aesTag (c.sha256 (c.ecdh (c.walletPriv eE) pub)) (c.ivBytes ivE) pt ∧
    (eciesEncrypt c eE ivE pt pub).drop 93 =
      c.aesEnc (c.sha256 (c.ecdh (c.walletPriv eE) pub)) (c.ivBytes ivE) pt := by
  have hblob : eciesEncrypt c eE ivE pt pub =
      c.walletPub eE ++ (c.ivBytes ivE ++
      (c.aesTag (c.sha256 (c.ecdh (c.walletPriv eE) pub)) (c.ivBytes ivE) pt ++
      c.aesEnc (c.sha256 (c.ecdh (c.walletPriv eE) pub)) (c.ivBytes ivE) pt)) := by
    unfold eciesEncrypt
    simp [List.append_assoc]
  have hdrop65 : (eciesEncrypt c eE ivE pt pub).drop 65 =
      c.ivBytes ivE ++
      (c.aesTag (c.sha256 (c.ecdh (c.walletPriv eE) pub)) (c.ivBytes ivE) pt ++
      c.aesEnc (c.sha256 (c.ecdh (c.walletPriv eE) pub)) (c.ivBytes ivE) pt) := by
    rw [hblob, ← hpub, List.drop_left]
  have hdrop77 : (eciesEncrypt c eE ivE pt pub).drop 77 =
      c.aesTag (c.sha256 (c.ecdh (c.walletPriv eE) pub)) (c.ivBytes ivE) pt ++
      c.aesEnc (c.sha256 (c.ecdh (c.walletPriv eE) pub)) (c.ivBytes ivE) pt := by
    have h1 : (77 : Nat) = 65 + 12 := rfl
    rw [h1, ← List.drop_drop, hdrop65, ← hiv, List.drop_left]
  refine ⟨by rw [hblob]; simp [List.append_assoc], ?_, ?_, ?_, ?_⟩
  · rw [hblob, ← hpub, List.take_left]
  · rw [hdrop65, ← hiv, List.take_left]
  · rw [hdrop77, ← htag, List.take_left]
  · have h2 : (93 : Nat) = 77 + 16 := rfl
    rw [h2, ← List.drop_drop, hdrop77, ← htag, List.drop_left]

/-- C8 witness: a toy instantiation of the primitives with the right output
lengths; the blob decomposes as specified. -/
theorem C8_ecies_wire_format_witness :
    eciesEncrypt
        ⟨fun n => n + 1, fun n => [n], fun n => List.replicate 65 (n % 256),
         fun a b => a ++ b, fun l => l, fun n => List.replicate 12 (n % 256),
         fun _ _ m => m, fun _ _ _ => List.replicate 16 0⟩ 0 1 [7] [8] =
      List.replicate 65 0 ++ List.replicate 12 1 ++ List.replicate 16 0 ++ [7] ∧
    (eciesEncrypt
        ⟨fun n => n + 1, fun n => [n], fun n => List.replicate 65 (n % 256),
         fun a b => a ++ b, fun l => l, fun n => List.replicate 12 (n % 256),
         fun _ _ m => m, fun _ _ _ => List.replicate 16 0⟩ 0 1 [7] [8]).take 65 =
      List.replicate 65 0 := by
  have h := C8_ecies_wire_format
    ⟨fun n => n + 1, fun n => [n], fun n => List.replicate 65 (n % 256),
     fun a b => a ++ b, fun l => l, fun n => List.replicate 12 (n % 256),
     fun _ _ m => m, fun _ _ _ => List.replicate 16 0⟩ 0 1 [7] [8]
    (by decide) (by decide) (by decide)
  exact ⟨h.1, h.2.1⟩

-- ══════════════════════════════════════════════════════════════
-- C6 — two-intent end-to-end matching scenario
-- ══════════════════════════════════════════════════════════════

/-- C6: on exactly two intents over the same token pair with `A < B` — a buy
of 100 and a sell of 60 — the matcher produces exactly one internal match
with `matchedAmount = 60` and no AMM settlements, and release generation
produces exactly two releases (buyer then seller), with the two freshly drawn
stealth addresses (distinct by the freshness of the CSPRNG draws) and release
times inside `[now + MIN_DELAY, now + MAX_DELAY]`. -/
theorem C6_two_intent_scenario
    (c : Crypto) (A B : Nat) (hAB : A < B)
    (id1 id2 : B32) (hid : id1 ≠ id2)
    (sn1 sn2 : Nat) (vk1 vk2 : List Nat) (dl1 dl2 : Nat) (now : Nat)
    (w1 d1 e1 v1 w2 d2 e2 v2 : Nat)
    (hw : c.walletAddr w1 ≠ c.walletAddr w2) :
    (matchIntents [⟨id1, sn1, A, B, 100, vk1, dl1⟩,
        ⟨id2, sn2, B, A, 60, vk2, dl2⟩]).1 = [⟨id1, id2, 60⟩] ∧
    (matchIntents [⟨id1, sn1, A, B, 100, vk1, dl1⟩,
        ⟨id2, sn2, B, A, 60, vk2, dl2⟩]).2.1 = [] ∧
    generateReleases c [w1, d1, e1, v1, w2, d2, e2, v2]
        [⟨id1, sn1, A, B, 100, vk1, dl1⟩, ⟨id2, sn2, B, A, 60, vk2, dl2⟩]
        [⟨id1, id2, 60⟩] [] now =
      ([⟨B, c.walletAddr w1, 60,
          now + (MIN_DELAY + d1 % (MAX_DELAY - MIN_DELAY + 1)),
          eciesEncrypt c e1 v1 (c.walletPriv w1) vk1, id1, false⟩,
        ⟨A, c.walletAddr w2, 60,
          now + (MIN_DELAY + d2 % (MAX_DELAY - MIN_DELAY + 1)),
          eciesEncrypt c e2 v2 (c.walletPriv w2) vk2, id2, false⟩], [], []) ∧
    c.walletAddr w1 ≠ c.walletAddr w2 ∧
    (∀ r ∈ (generateReleases c [w1, d1, e1, v1, w2, d2, e2, v2]
        [⟨id1, sn1, A, B, 100, vk1, dl1⟩, ⟨id2, sn2, B, A, 60, vk2, dl2⟩]
        [⟨id1, id2, 60⟩] [] now).1,
      now + MIN_DELAY ≤ r.releaseTime ∧ r.releaseTime ≤ now + MAX_DELAY) := by
  have hbp : buildPairs [⟨id1, sn1, A, B, 100, vk1, dl1⟩,
      ⟨id2, sn2, B, A, 60, vk2, dl2⟩] =
      [((A, B), ([⟨id1, sn1, A, B, 100, vk1, dl1⟩],
        [⟨id2, sn2, B, A, 60, vk2, dl2⟩]))] := by
    simp [buildPairs, pushIntent, pairKeyOf, isBuyIntent, mlookup, mupd,
      hAB.le, hAB, not_le.mpr hAB, lt_asymm hAB]
  have hml : matchLoop [] [⟨id1, sn1, A, B, 100, vk1, dl1⟩]
      [⟨id2, sn2, B, A, 60, vk2, dl2⟩] =
      ([⟨id1, id2, 60⟩], [id1, id2]) := by
    simp [matchLoop, memB]
  have hmg : matchGroups [] (buildPairs [⟨id1, sn1, A, B, 100, vk1, dl1⟩,
      ⟨id2, sn2, B, A, 60, vk2, dl2⟩]) = ([⟨id1, id2, 60⟩], [id1, id2]) := by
    rw [hbp]
    simp [matchGroups, hml]
  have hmi : matchIntents [⟨id1, sn1, A, B, 100, vk1, dl1⟩,
      ⟨id2, sn2, B, A, 60, vk2, dl2⟩] = ([⟨id1, id2, 60⟩], [], [id1, id2]) := by
    unfold matchIntents
    rw [hmg]
    simp [List.filter, memB, hid]
  have hgr : generateReleases c [w1, d1, e1, v1, w2, d2, e2, v2]
      [⟨id1, sn1, A, B, 100, vk1, dl1⟩, ⟨id2, sn2, B, A, 60, vk2, dl2⟩]
      [⟨id1, id2, 60⟩] [] now =
      ([⟨B, c.walletAddr w1, 60,
          now + (MIN_DELAY + d1 % (MAX_DELAY - MIN_DELAY + 1)),
          eciesEncrypt c e1 v1 (c.walletPriv w1) vk1, id1, false⟩,
        ⟨A, c.walletAddr w2, 60,
          now + (MIN_DELAY + d2 % (MAX_DELAY - MIN_DELAY + 1)),
          eciesEncrypt c e2 v2 (c.walletPriv w2) vk2, id2, false⟩], [], []) := by
    simp [generateReleases, genMatchReleases, genAmmReleases, findIntent,
      mkRelease, takeR, List.find?, hid, Ne.symm hid]
  refine ⟨by rw [hmi], by rw [hmi], hgr, hw, ?_⟩
  rw [hgr]
  intro r hr
  rcases List.mem_cons.mp hr with rfl | hr2
  · constructor
    · simp
    · simp only [MIN_DELAY, MAX_DELAY]
      have : d1 % 121 < 121 := Nat.mod_lt _ (by norm_num)
      omega
  · rcases List.mem_cons.mp hr2 with rfl | hr3
    · constructor
      · simp
      · simp only [MIN_DELAY, MAX_DELAY]
        have : d2 % 121 < 121 := Nat.mod_lt _ (by norm_num)
        omega
    · cases hr3

/-- C6 witness: the scenario run with tokens `1 < 2`, intents `raw 1` (buy
100) and `raw 2` (sell 60), a toy primitive instantiation and the entropy
stream `[0,…,7]`. -/
theorem C6_two_intent_scenario_witness :
    (matchIntents [⟨B32.raw 1, 3, 1, 2, 100, [], 50⟩,
        ⟨B32.raw 2, 4, 2, 1, 60, [], 50⟩]).1 = [⟨B32.raw 1, B32.raw 2, 60⟩] ∧
    (matchIntents [⟨B32.raw 1, 3, 1, 2, 100, [], 50⟩,
        ⟨B32.raw 2, 4, 2, 1, 60, [], 50⟩]).2.1 = [] ∧
    generateReleases
        ⟨fun n => n + 1, fun n => [n], fun n => List.replicate 65 (n % 256),
         fun a b => a ++ b, fun l => l, fun n => List.replicate 12 (n % 256),
         fun _ _ m => m, fun _ _ _ => List.replicate 16 0⟩
        [0, 1, 2, 3, 4, 5, 6, 7]
        [⟨B32.raw 1, 3, 1, 2, 100, [], 50⟩, ⟨B32.raw 2, 4, 2, 1, 60, [], 50⟩]
        [⟨B32.raw 1, B32.raw 2, 60⟩] [] 1000 =
      ([⟨2, (fun (n : Nat) => n + 1) 0, 60,
          1000 + (MIN_DELAY + 1 % (MAX_DELAY - MIN_DELAY + 1)),
          eciesEncrypt
            ⟨fun n => n + 1, fun n => [n], fun n => List.replicate 65 (n % 256),
             fun a b => a ++ b, fun l => l, fun n => List.replicate 12 (n % 256),
             fun _ _ m => m, fun _ _ _ => List.replicate 16 0⟩ 2 3
            ((fun (n : Nat) => [n]) 0) [], B32.raw 1, false⟩,
        ⟨1, (fun (n : Nat) => n + 1) 4, 60,
          1000 + (MIN_DELAY + 5 % (MAX_DELAY - MIN_DELAY + 1)),
          eciesEncrypt
            ⟨fun n => n + 1, fun n => [n], fun n => List.replicate 65 (n % 256),
             fun a b => a ++ b, fun l => l, fun n => List.replicate 12 (n % 256),
             fun _ _ m => m, fun _ _ _ => List.replicate 16 0⟩ 6 7
            ((fun (n : Nat) => [n]) 4) [], B32.raw 2, false⟩], [], []) ∧
    (fun (n : Nat) => n + 1) 0 ≠ (fun (n : Nat) => n + 1) 4 := by
  have h := C6_two_intent_scenario
    ⟨fun n => n + 1, fun n => [n], fun n => List.replicate 65 (n % 256),
     fun a b => a ++ b, fun l => l, fun n => List.replicate 12 (n % 256),
     fun _ _ m => m, fun _ _ _ => List.replicate 16 0⟩
    1 2 (by decide) (B32.raw 1) (B32.raw 2) (by decide) 3 4 [] [] 50 50 1000
    0 1 2 3 4 5 6 7 (by decide)
  exact ⟨h.1, h.2.1, h.2.2.1, h.2.2.2.1⟩
